import Mathlib

/-!
Sample replay engine (`src/main/cc/replay.h`)

A shallow embedding of `replay_t<T>`: the log parser `load_samples`, the
replay state machine `replay` with its helpers `reset`, `step`, `load`,
`poke`, `force`, `expect`, and the three pure-virtual primitives of the
simulation target (`take_steps`, `put_value`, `get_value`).

Conventions of the embedding

* `size_t` and `uint64_t` are 64-bit unsigned: additions are taken modulo
  `2 ^ 64`.  `ssize_t` is `Int`, `biguint_t` is `Nat`.
* `std::map<std::string, size_t>` is an association list read with
  `List.lookup`; `operator[]` inserts the key with value `0` when it is absent.
* `std::vector` is `List`; an index beyond the end, a failed `assert` and a
  dereferenced `NULL` are reported as a `Fault` together with the state
  reached.
* The derived class that implements the three virtuals is a `Target`: a state
  type `σ` with one transition function per primitive.  Every call of a
  primitive is appended to the ghost field `calls`, and every value returned
  by `expect` to the ghost field `expects`.
* Text written to `std::cerr` is not modelled; the flag `log` only guards
  such output.
-/

namespace Replay

/-! ## Data model -/

/-- The arbitrary-precision unsigned value type of `sample.h`. -/
abbrev biguint_t := Nat

/-- The modulus of `size_t` and `uint64_t` arithmetic. -/
def WORD : Nat := 2 ^ 64

/-- The deposit modes, `enum PUT_VALUE_TYPE` (line 12). -/
inductive PUT_VALUE_TYPE where
  | PUT_POKE
  | PUT_LOAD
  | PUT_FORCE
deriving DecidableEq

/-- Modelled from the spec: the command classes of `sample.h` (`step_t`,
`load_t`, `force_t`, `poke_t`, `expect_t`, all derived from `sample_inst_t`),
with the fields `replay.h` reads: `n`, `type`, `id`, `value`, `idx`. -/
inductive sample_inst_t where
  | step_t (n : Nat)
  | load_t (type id : Nat) (value : biguint_t) (idx : Int)
  | force_t (type id : Nat) (value : biguint_t)
  | poke_t (type id : Nat) (value : biguint_t)
  | expect_t (type id : Nat) (value : biguint_t)
deriving DecidableEq

/-- Modelled from the spec: the Snapshot class `sample_t` of `sample.h`, a
cycle label (`get_cycle`) and an ordered command list (`get_cmds`, `add_cmd`). -/
structure sample_t where
  cycle : Nat
  cmds : List sample_inst_t
deriving DecidableEq

/-- The registry, `template<class T> struct replay_data_t` (lines 14-17). -/
structure replay_data_t (T : Type) where
  signals : List T
  signal_map : List (String × Nat)
deriving DecidableEq

/-- The data members of `replay_t<T>`. -/
structure replay_t (T : Type) where
  cycles : Nat
  log : Bool
  pass : Bool
  is_exit : Bool
  samples : List sample_t
  chains : List (List String)
  replay_data : replay_data_t T
deriving DecidableEq

/-- The constructor `replay_t()`: `cycles(0L), log(false), pass(true),
is_exit(false)`, empty containers. -/
def replay_t.fresh (T : Type) : replay_t T :=
  { cycles := 0, log := false, pass := true, is_exit := false,
    samples := [], chains := [], replay_data := { signals := [], signal_map := [] } }

/-- One call of a pure-virtual primitive, with the arguments it received. -/
inductive Call (T : Type) where
  | take_steps (n : Nat)
  | put_value (sig : T) (data : biguint_t) (type : PUT_VALUE_TYPE)
  | get_value (sig : T)
deriving DecidableEq

/-- The three pure virtuals, as transitions of the derived class's state. -/
structure Target (σ T : Type) where
  take_steps : σ → Nat → σ
  put_value : σ → T → biguint_t → PUT_VALUE_TYPE → σ
  get_value : σ → T → biguint_t × σ

/-- A running engine: the `replay_t` members, the target's state, and the two
ghost histories. -/
structure Sim (σ T : Type) where
  eng : replay_t T
  tgt : σ
  calls : List (Call T)
  expects : List Bool

/-- What stops a run. -/
inductive Fault where
  | assert_failed (signal : String)
  | out_of_range
  | null_sample
deriving DecidableEq

/-- The result of an engine operation: a value, or a fault and the state in
which it struck. -/
inductive Run (σ T α : Type) where
  | ok (a : α)
  | abort (f : Fault) (s : Sim σ T)

/-- Sequencing: a fault ends the run. -/
def Run.bind {σ T α β : Type} (x : Run σ T α) (k : α → Run σ T β) : Run σ T β :=
  match x with
  | .ok a => k a
  | .abort f s => .abort f s

/-! ## The primitives and the engine helpers -/

section Engine

variable {σ T : Type}

/-- The test `std::map::find(k) != end()` together with the mapped value. -/
def map_find (m : List (String × Nat)) (k : String) : Option Nat :=
  m.lookup k

/-- The access `std::map::operator[]`: the mapped value, inserting `0` for an
absent key. -/
def map_subscript (m : List (String × Nat)) (k : String) : Nat × List (String × Nat) :=
  match m.lookup k with
  | some v => (v, m)
  | none => (0, m ++ [(k, 0)])

/-- The call `take_steps(n)`. -/
def take_steps (tg : Target σ T) (s : Sim σ T) (n : Nat) : Sim σ T :=
  { s with tgt := tg.take_steps s.tgt n, calls := s.calls ++ [Call.take_steps n] }

/-- The call `put_value(sig, data, type)`. -/
def put_value (tg : Target σ T) (s : Sim σ T) (sig : T) (data : biguint_t)
    (type : PUT_VALUE_TYPE) : Sim σ T :=
  { s with tgt := tg.put_value s.tgt sig data type,
           calls := s.calls ++ [Call.put_value sig data type] }

/-- The call `get_value(sig)`. -/
def get_value (tg : Target σ T) (s : Sim σ T) (sig : T) : biguint_t × Sim σ T :=
  ((tg.get_value s.tgt sig).1,
   { s with tgt := (tg.get_value s.tgt sig).2, calls := s.calls ++ [Call.get_value sig] })

/-- The statement `size_t id = replay_data.signal_map[node];`. -/
def signal_id (s : Sim σ T) (node : String) : Nat × Sim σ T :=
  ((map_subscript s.eng.replay_data.signal_map node).1,
   { s with eng := { s.eng with replay_data :=
      { s.eng.replay_data with
        signal_map := (map_subscript s.eng.replay_data.signal_map node).2 } } })

/-- The element access `replay_data.signals[id]`. -/
def signal_at (s : Sim σ T) (id : Nat) : Run σ T T :=
  match s.eng.replay_data.signals[id]? with
  | some sig => .ok sig
  | none => .abort Fault.out_of_range s

/-- Method `replay_t::reset` (lines 45-50). -/
def reset (tg : Target σ T) (s : Sim σ T) (n : Nat) : Run σ T (Sim σ T) :=
  let one : biguint_t := 1
  let (id, s1) := signal_id s "reset"
  (signal_at s1 id).bind fun sig =>
  .ok (take_steps tg (put_value tg s1 sig one PUT_VALUE_TYPE.PUT_POKE) n)

/-- Method `replay_t::step` (lines 163-167). -/
def step (tg : Target σ T) (s : Sim σ T) (n : Nat) : Sim σ T :=
  take_steps tg { s with eng := { s.eng with cycles := (s.eng.cycles + n) % WORD } } n

/-- Method `replay_t::check_signal` (lines 169-171). -/
def check_signal (s : Sim σ T) (signal : String) : Run σ T (Sim σ T) :=
  match map_find s.eng.replay_data.signal_map signal with
  | some _ => .ok s
  | none => .abort (Fault.assert_failed signal) s

/-- Method `replay_t::force` (lines 173-178). -/
def force (tg : Target σ T) (s : Sim σ T) (node : String) (data : biguint_t) :
    Run σ T (Sim σ T) :=
  (check_signal s node).bind fun s0 =>
  let (id, s1) := signal_id s0 node
  (signal_at s1 id).bind fun sig =>
  .ok (put_value tg s1 sig data PUT_VALUE_TYPE.PUT_FORCE)

/-- Method `replay_t::load` (lines 180-185). -/
def load (tg : Target σ T) (s : Sim σ T) (node : String) (data : biguint_t) :
    Run σ T (Sim σ T) :=
  (check_signal s node).bind fun s0 =>
  let (id, s1) := signal_id s0 node
  (signal_at s1 id).bind fun sig =>
  .ok (put_value tg s1 sig data PUT_VALUE_TYPE.PUT_LOAD)

/-- Method `replay_t::poke` (lines 187-192). -/
def poke (tg : Target σ T) (s : Sim σ T) (node : String) (data : biguint_t) :
    Run σ T (Sim σ T) :=
  (check_signal s node).bind fun s0 =>
  let (id, s1) := signal_id s0 node
  (signal_at s1 id).bind fun sig =>
  .ok (put_value tg s1 sig data PUT_VALUE_TYPE.PUT_POKE)

/-- Method `replay_t::expect` (lines 194-204); the local `pass` is the returned
value, which is also appended to the ghost history `expects`. -/
def expect (tg : Target σ T) (s : Sim σ T) (node : String) (expected : biguint_t) :
    Run σ T (Bool × Sim σ T) :=
  (check_signal s node).bind fun s0 =>
  let (id, s1) := signal_id s0 node
  (signal_at s1 id).bind fun sig =>
  let (value, s2) := get_value tg s1 sig
  let pass : Bool := value == expected || decide (s2.eng.cycles ≤ 1)
  .ok (pass, { s2 with expects := s2.expects ++ [pass] })

/-- The element access `chains[type][id]`. -/
def chain_at (s : Sim σ T) (type id : Nat) : Run σ T String :=
  match s.eng.chains[type]? with
  | none => .abort Fault.out_of_range s
  | some chain =>
    match chain[id]? with
    | none => .abort Fault.out_of_range s
    | some name => .ok name

/-- The body of the inner loop of `replay_t::replay` (lines 59-76): the four
`dynamic_cast` tests.  No test is made for `force_t`. -/
def exec_cmd (tg : Target σ T) (s : Sim σ T) (cmd : sample_inst_t) : Run σ T (Sim σ T) :=
  match cmd with
  | .step_t n => .ok (step tg s n)
  | .load_t type id value idx =>
    if idx < 0 then
      (chain_at s type id).bind fun name => load tg s name value
    else
      (chain_at s type id).bind fun name =>
        load tg s (name ++ "[" ++ toString idx ++ "]") value
  | .poke_t type id value =>
    (chain_at s type id).bind fun name => poke tg s name value
  | .expect_t type id value =>
    (chain_at s type id).bind fun name =>
    (expect tg s name value).bind fun r =>
    .ok { r.2 with eng := { r.2.eng with pass := r.2.eng.pass && r.1 } }
  | .force_t _ _ _ => .ok s

/-- The inner loop `for (size_t i = 0; i < sample->get_cmds().size(); i++)`;
the first argument bounds the number of iterations. -/
def cmd_loop (tg : Target σ T) (cmds : List sample_inst_t) :
    Nat → Nat → Sim σ T → Run σ T (Sim σ T)
  | 0, _, s => .ok s
  | fuel + 1, i, s =>
    match cmds[i]? with
    | some cmd => (exec_cmd tg s cmd).bind fun s1 => cmd_loop tg cmds fuel (i + 1) s1
    | none => .ok s

/-- The outer loop `for (size_t k = 0; k < samples.size(); k++)` (lines
54-78); the first argument bounds the number of iterations. -/
def sample_loop (tg : Target σ T) : Nat → Nat → Sim σ T → Run σ T (Sim σ T)
  | 0, _, s => .ok s
  | fuel + 1, k, s =>
    match s.eng.samples[k]? with
    | some sample =>
      ((reset tg s 5).bind fun s1 =>
        cmd_loop tg sample.cmds sample.cmds.length 0 s1).bind fun s2 =>
      sample_loop tg fuel (k + 1) s2
    | none => .ok s

/-- Method `replay_t::replay` (lines 52-80). -/
def replay (tg : Target σ T) (s : Sim σ T) : Run σ T (Sim σ T) :=
  ((reset tg s 5).bind fun s1 =>
    sample_loop tg s1.eng.samples.length 0 s1).bind fun s2 =>
  .ok { s2 with eng := { s2.eng with is_exit := true } }

/-- Method `replay_t::done` (line 85). -/
def done (s : Sim σ T) : Bool := s.eng.is_exit

/-- Method `replay_t::exitcode` (line 86), with `EXIT_SUCCESS = 0` and `EXIT_FAILURE = 1`. -/
def exitcode (s : Sim σ T) : Nat := if s.eng.pass then 0 else 1

/-- Method `replay_t::finish` (lines 35-43): the Snapshots are released and the
list cleared; the returned value is `exitcode()`. -/
def finish (s : Sim σ T) : Nat × Sim σ T :=
  (exitcode { s with eng := { s.eng with samples := [] } },
   { s with eng := { s.eng with samples := [] } })

end Engine

/-! ## The log parser -/

section Parser

variable {T : Type}

/-- Modelled from the spec: one line of the log after `iss >> type`, named by
the enumerator of `SAMPLE_INST_TYPE` (`sample.h`) its code casts to, with the
fields the matching `case` extracts; `other` is a code the `switch` does not
list. -/
inductive record where
  | SIGNALS (t : Nat) (signal : String)
  | CYCLE (cycles : Nat)
  | LOAD (t id : Nat) (value : biguint_t) (idx : Int)
  | FORCE (t id : Nat) (value : biguint_t)
  | POKE (t id : Nat) (value : biguint_t)
  | STEP (n : Nat)
  | EXPECT (t id : Nat) (value : biguint_t)
  | other (type : Nat)
deriving DecidableEq

/-- The engine together with the locals of `load_samples`: `steps`, and the
pointer `sample`, held as the position in `samples` of the Snapshot it points
to (`none` is `NULL`). -/
structure load_state (T : Type) where
  eng : replay_t T
  steps : Nat
  sample : Option Nat
deriving DecidableEq

/-- Apply `f` to the element at one position of a list. -/
def update_at {α : Type} (f : α → α) : Nat → List α → List α
  | _, [] => []
  | 0, x :: xs => f x :: xs
  | i + 1, x :: xs => x :: update_at f i xs

/-- The loop `while (chains.size() <= t) chains.push_back(...)` (lines
116-118); the first argument bounds the number of iterations. -/
def grow_chains : Nat → Nat → List (List String) → List (List String)
  | 0, _, chains => chains
  | fuel + 1, t, chains =>
    if chains.length ≤ t then grow_chains fuel t (chains ++ [[]]) else chains

/-- The call `sample->add_cmd(cmd)`. -/
def add_cmd (st : load_state T) (cmd : sample_inst_t) : Except Fault (load_state T) :=
  match st.sample with
  | none => .error Fault.null_sample
  | some p =>
    let push := fun (smp : sample_t) => { smp with cmds := smp.cmds ++ [cmd] }
    .ok { st with eng := { st.eng with samples := update_at push p st.eng.samples } }

/-- One iteration of the `while (std::getline(file, line))` loop of
`load_samples` (lines 105-155). -/
def load_record (st : load_state T) (r : record) : Except Fault (load_state T) :=
  match r with
  | .SIGNALS t signal =>
    let grown := grow_chains (t + 1) t st.eng.chains
    .ok { st with eng := { st.eng with chains := update_at (fun chain => chain ++ [signal]) t grown } }
  | .CYCLE cycles =>
    .ok { eng := { st.eng with samples := st.eng.samples ++ [{ cycle := cycles, cmds := [] }] },
          steps := 0,
          sample := some st.eng.samples.length }
  | .LOAD t id value idx => add_cmd st (.load_t t id value idx)
  | .FORCE t id value => add_cmd st (.force_t t id value)
  | .POKE t id value => add_cmd st (.poke_t t id value)
  | .STEP n =>
    match add_cmd st (.step_t n) with
    | .ok st1 => .ok { st1 with steps := (st1.steps + n) % WORD }
    | .error f => .error f
  | .EXPECT t id value =>
    if st.steps > 1 then add_cmd st (.expect_t t id value) else .ok st
  | .other _ => .ok st

/-- The `while` loop of `load_samples` over the lines of the file. -/
def load_lines : List record → load_state T → Except Fault (load_state T)
  | [], st => .ok st
  | r :: rest, st =>
    match load_record st r with
    | .ok st1 => load_lines rest st1
    | .error f => .error f

/-- The locals of `load_samples` at loop entry (lines 103-104). -/
def load_init (e : replay_t T) : load_state T :=
  { eng := e, steps := 0, sample := none }

/-- Method `replay_t::load_samples` (lines 96-157) on an opened file. -/
def load_samples (e : replay_t T) (lines : List record) : Except Fault (replay_t T) :=
  match load_lines lines (load_init e) with
  | .ok st => .ok st.eng
  | .error f => .error f

end Parser

/-! ## Vocabulary of the properties -/

section Vocabulary

variable {σ T : Type}

/-- The commands of one Snapshot, in list order. -/
def run_cmds (tg : Target σ T) : List sample_inst_t → Sim σ T → Run σ T (Sim σ T)
  | [], s => .ok s
  | cmd :: rest, s => (exec_cmd tg s cmd).bind fun s1 => run_cmds tg rest s1

/-- For each Snapshot in list order: `reset(5)`, then its commands. -/
def run_samples (tg : Target σ T) : List sample_t → Sim σ T → Run σ T (Sim σ T)
  | [], s => .ok s
  | sample :: rest, s =>
    ((reset tg s 5).bind fun s1 => run_cmds tg sample.cmds s1).bind fun s2 =>
    run_samples tg rest s2

/-- The order of operations of the spec's `replay()`: `reset(5)` once, then
every Snapshot in list order, then the engine is done. -/
def replay_in_order (tg : Target σ T) (s : Sim σ T) : Run σ T (Sim σ T) :=
  ((reset tg s 5).bind fun s1 => run_samples tg s1.eng.samples s1).bind fun s2 =>
  .ok { s2 with eng := { s2.eng with is_exit := true } }

/-- The handle registered for a name: the element of `signals` its entry of
`signal_map` points to. -/
def handle_of (rd : replay_data_t T) (name : String) : Option T :=
  match rd.signal_map.lookup name with
  | some id => rd.signals[id]?
  | none => none

/-- Chain Table resolution `chains[type][id]`. -/
def resolve (chains : List (List String)) (type id : Nat) : Option String :=
  match chains[type]? with
  | some chain => chain[id]?
  | none => none

/-- The decimal text of a natural number. -/
def decimal (n : Nat) : String := String.mk (Nat.toDigits 10 n)

/-- The registry name of a Load: `"<name>[<index>]"` for a non-negative index,
`"<name>"` for a negative one. -/
def load_name (name : String) (idx : Int) : String :=
  if 0 ≤ idx then name ++ "[" ++ decimal idx.toNat ++ "]" else name

/-- The registry name a Load, Poke or Expect command is looked up under. -/
def cmd_signal (chains : List (List String)) : sample_inst_t → Option String
  | .load_t type id _ idx => (resolve chains type id).map fun name => load_name name idx
  | .poke_t type id _ => resolve chains type id
  | .expect_t type id _ => resolve chains type id
  | .step_t _ => none
  | .force_t _ _ _ => none

/-- Whether a command is a Load, a Poke or an Expect. -/
def looks_up : sample_inst_t → Bool
  | .load_t _ _ _ _ => true
  | .poke_t _ _ _ => true
  | .expect_t _ _ _ => true
  | .step_t _ => false
  | .force_t _ _ _ => false

/-- A Load, Poke or Expect whose name resolves to a registered handle; every
other command. -/
def cmd_resolves (e : replay_t T) (cmd : sample_inst_t) : Bool :=
  !looks_up cmd ||
    (match cmd_signal e.chains cmd with
     | some name => (handle_of e.replay_data name).isSome
     | none => false)

/-- Every signal lookup of a replay resolves: `"reset"` and the name of each
Load, Poke and Expect of each Snapshot. -/
def all_resolve (e : replay_t T) : Bool :=
  (handle_of e.replay_data "reset").isSome &&
    e.samples.all fun sample => sample.cmds.all fun cmd => cmd_resolves e cmd

/-- A Load, Poke or Expect whose registry name is not a key of `signal_map`. -/
def unregistered (e : replay_t T) (cmd : sample_inst_t) : Bool :=
  match cmd_signal e.chains cmd with
  | some name => (e.replay_data.signal_map.lookup name).isNone
  | none => false

/-- Every entry of `signal_map` holds a valid index into `signals`. -/
def handles_valid (rd : replay_data_t T) : Bool :=
  rd.signal_map.all fun entry => decide (entry.2 < rd.signals.length)

/-- A Load, Poke or Expect has `type < chains.size()` and
`id < chains[type].size()`; nothing is asked of other commands. -/
def chain_covers (e : replay_t T) (cmd : sample_inst_t) : Bool :=
  !looks_up cmd || (cmd_signal e.chains cmd).isSome

/-- The name `"reset"` is registered, every registered handle is a valid index, and the
chain table covers every Load, Poke and Expect of every Snapshot. -/
def lookups_in_range (e : replay_t T) : Bool :=
  (e.replay_data.signal_map.lookup "reset").isSome && handles_valid e.replay_data &&
    e.samples.all fun sample => sample.cmds.all fun cmd => chain_covers e cmd

/-- Some command of some Snapshot is unregistered. -/
def some_unregistered (e : replay_t T) : Bool :=
  e.samples.any fun sample => sample.cmds.any fun cmd => unregistered e cmd

/-- The primitive calls of `reset(n)`. -/
def reset_calls (e : replay_t T) (n : Nat) : List (Call T) :=
  match handle_of e.replay_data "reset" with
  | some sig => [Call.put_value sig 1 PUT_VALUE_TYPE.PUT_POKE, Call.take_steps n]
  | none => []

/-- The primitive calls the loop body of `replay()` makes for one command. -/
def cmd_calls (e : replay_t T) (cmd : sample_inst_t) : List (Call T) :=
  match cmd with
  | .step_t n => [Call.take_steps n]
  | .load_t _ _ value _ =>
    match (cmd_signal e.chains cmd).bind (handle_of e.replay_data) with
    | some sig => [Call.put_value sig value PUT_VALUE_TYPE.PUT_LOAD]
    | none => []
  | .poke_t _ _ value =>
    match (cmd_signal e.chains cmd).bind (handle_of e.replay_data) with
    | some sig => [Call.put_value sig value PUT_VALUE_TYPE.PUT_POKE]
    | none => []
  | .expect_t _ _ _ =>
    match (cmd_signal e.chains cmd).bind (handle_of e.replay_data) with
    | some sig => [Call.get_value sig]
    | none => []
  | .force_t _ _ _ => []

/-- The primitive calls of the commands of one Snapshot, in order. -/
def cmds_calls (e : replay_t T) (cmds : List sample_inst_t) : List (Call T) :=
  (cmds.map (cmd_calls e)).flatten

/-- The primitive calls of a list of Snapshots: for each, those of `reset(5)`
and then those of its commands. -/
def samples_calls (e : replay_t T) (samples : List sample_t) : List (Call T) :=
  (samples.map fun sample => reset_calls e 5 ++ cmds_calls e sample.cmds).flatten

/-- The count of a Step command, `0` for any other command. -/
def step_count : sample_inst_t → Nat
  | .step_t n => n
  | _ => 0

/-- The sum of the counts of the Step commands of a command list. -/
def cmds_steps (cmds : List sample_inst_t) : Nat :=
  (cmds.map step_count).sum

/-- The sum of the counts of the Step commands of all Snapshots. -/
def samples_steps (samples : List sample_t) : Nat :=
  (samples.map fun sample => cmds_steps sample.cmds).sum

/-- The members `replay()` only reads are the same in two engine states. -/
def same_tables (e e' : replay_t T) : Prop :=
  e'.samples = e.samples ∧ e'.chains = e.chains ∧ e'.replay_data = e.replay_data ∧
    e'.log = e.log ∧ e'.is_exit = e.is_exit

/-- The cycle counter after one command: a Step adds its count modulo
`2 ^ 64`, every other command leaves it. -/
def cmd_cycles (c : Nat) : sample_inst_t → Nat
  | .step_t n => (c + n) % WORD
  | _ => c

/-- The cycle counter after the commands of one Snapshot. -/
def cmds_cycles (c : Nat) (cmds : List sample_inst_t) : Nat :=
  cmds.foldl cmd_cycles c

/-- The cycle counter after the commands of a list of Snapshots. -/
def samples_cycles (c : Nat) (samples : List sample_t) : Nat :=
  samples.foldl (fun c sample => cmds_cycles c sample.cmds) c

/-- The effect of one record on the sum of the STEP counts since the most
recent CYCLE record. -/
def record_steps (acc : Nat) : record → Nat
  | .CYCLE _ => 0
  | .STEP n => acc + n
  | _ => acc

/-- The sum of the counts of the STEP records after the most recent CYCLE
record of a log (of all its STEP records when it has no CYCLE record). -/
def steps_since_cycle (lines : List record) : Nat :=
  lines.foldl record_steps 0

/-- The pointer `sample` of `load_samples` is `NULL` while the step counter is
zero, or points to the last Snapshot of the list. -/
def pointer_ok (st : load_state T) : Prop :=
  match st.sample with
  | none => st.steps = 0
  | some p => p + 1 = st.eng.samples.length

/-- The commands that the records up to the next CYCLE record add to the
Snapshot that is open, in record order: one per STEP, LOAD, FORCE and POKE
record with the record's fields, one per EXPECT record met while the step
counter `k` is greater than 1, none for any other record. -/
def segment_cmds : Nat → List record → List sample_inst_t
  | _, [] => []
  | _, .CYCLE _ :: _ => []
  | k, .STEP n :: rest => .step_t n :: segment_cmds ((k + n) % WORD) rest
  | k, .LOAD t id value idx :: rest => .load_t t id value idx :: segment_cmds k rest
  | k, .FORCE t id value :: rest => .force_t t id value :: segment_cmds k rest
  | k, .POKE t id value :: rest => .poke_t t id value :: segment_cmds k rest
  | k, .EXPECT t id value :: rest =>
    if k > 1 then .expect_t t id value :: segment_cmds k rest else segment_cmds k rest
  | k, .SIGNALS _ _ :: rest => segment_cmds k rest
  | k, .other _ :: rest => segment_cmds k rest

/-- The Snapshots of a log: one per CYCLE record, in log order, labelled with
the record's cycle number and holding the commands of the records between it
and the next CYCLE record. -/
def snapshots_of : List record → List sample_t
  | [] => []
  | .CYCLE cycles :: rest => ⟨cycles, segment_cmds 0 rest⟩ :: snapshots_of rest
  | _ :: rest => snapshots_of rest

/-- The cycle numbers of the CYCLE records of a log, in log order. -/
def cycle_labels : List record → List Nat
  | [] => []
  | .CYCLE cycles :: rest => cycles :: cycle_labels rest
  | _ :: rest => cycle_labels rest

/-- Some LOAD, FORCE, POKE or STEP record occurs before the first CYCLE record. -/
def early_command : List record → Bool
  | [] => false
  | .CYCLE _ :: _ => false
  | .LOAD _ _ _ _ :: _ => true
  | .FORCE _ _ _ :: _ => true
  | .POKE _ _ _ :: _ => true
  | .STEP _ :: _ => true
  | _ :: rest => early_command rest

/-- A record whose code is none of the seven the `switch` lists. -/
def unrecognized : record → Bool
  | .other _ => true
  | _ => false

/-- The members `load_samples` never writes are the same in two engine states. -/
def parse_frame (e e' : replay_t T) : Prop :=
  e'.cycles = e.cycles ∧ e'.pass = e.pass ∧ e'.log = e.log ∧ e'.is_exit = e.is_exit ∧
    e'.replay_data = e.replay_data

/-- The arguments of the `take_steps` calls of a call history, in order. -/
def advances : List (Call T) → List Nat
  | [] => []
  | .take_steps n :: rest => n :: advances rest
  | _ :: rest => advances rest

/-- The counts of the Step commands of a command list, in order. -/
def step_counts : List sample_inst_t → List Nat
  | [] => []
  | .step_t n :: rest => n :: step_counts rest
  | _ :: rest => step_counts rest

/-- Every Expect of a command list is met at a counter above 1, the counter
starting at `k` and following the Step commands modulo `2 ^ 64`. -/
def guarded : Nat → List sample_inst_t → Bool
  | _, [] => true
  | k, .expect_t type id value :: rest =>
    decide (1 < k) && guarded (cmd_cycles k (.expect_t type id value)) rest
  | k, cmd :: rest => guarded (cmd_cycles k cmd) rest

/-- The comparison of `expect` without its grace clause: the result is
`observed == expected`. -/
def expect_strict (tg : Target σ T) (s : Sim σ T) (node : String) (expected : biguint_t) :
    Run σ T (Bool × Sim σ T) :=
  (check_signal s node).bind fun s0 =>
  let (id, s1) := signal_id s0 node
  (signal_at s1 id).bind fun sig =>
  let (value, s2) := get_value tg s1 sig
  let pass : Bool := value == expected
  .ok (pass, { s2 with expects := s2.expects ++ [pass] })

/-- The loop body of `replay()` with `expect_strict` in place of `expect`. -/
def exec_cmd_strict (tg : Target σ T) (s : Sim σ T) (cmd : sample_inst_t) :
    Run σ T (Sim σ T) :=
  match cmd with
  | .expect_t type id value =>
    (chain_at s type id).bind fun name =>
    (expect_strict tg s name value).bind fun r =>
    .ok { r.2 with eng := { r.2.eng with pass := r.2.eng.pass && r.1 } }
  | cmd => exec_cmd tg s cmd

/-- The commands of one Snapshot, in list order, without the grace clause. -/
def run_cmds_strict (tg : Target σ T) : List sample_inst_t → Sim σ T → Run σ T (Sim σ T)
  | [], s => .ok s
  | cmd :: rest, s => (exec_cmd_strict tg s cmd).bind fun s1 => run_cmds_strict tg rest s1

/-- The Snapshots in list order, without the grace clause. -/
def run_samples_strict (tg : Target σ T) : List sample_t → Sim σ T → Run σ T (Sim σ T)
  | [], s => .ok s
  | sample :: rest, s =>
    ((reset tg s 5).bind fun s1 => run_cmds_strict tg sample.cmds s1).bind fun s2 =>
    run_samples_strict tg rest s2

/-- The replay in which every Expect is decided by `observed == expected`. -/
def replay_strict (tg : Target σ T) (s : Sim σ T) : Run σ T (Sim σ T) :=
  ((reset tg s 5).bind fun s1 => run_samples_strict tg s1.eng.samples s1).bind fun s2 =>
  .ok { s2 with eng := { s2.eng with is_exit := true } }

/-- The log of the spec's example: `"reset"` is name 0 of group 0, `"clk"`
name 0 of group 1; one CYCLE record labelled 10, a POKE of `v` on (0, 0), a
STEP of 2 and an EXPECT of `e` on (0, 0). -/
def example_log (v e : biguint_t) : List record :=
  [.SIGNALS 0 "reset", .SIGNALS 1 "clk", .CYCLE 10, .POKE 0 0 v, .STEP 2, .EXPECT 0 0 e]

/-- The engine `load_samples` makes of `example_log` from a fresh engine whose
registry is `rd`. -/
def example_engine (rd : replay_data_t T) (v e : biguint_t) : replay_t T :=
  { replay_t.fresh T with
    replay_data := rd
    chains := [["reset"], ["clk"]]
    samples := [⟨10, [.poke_t 0 0 v, .step_t 2, .expect_t 0 0 e]⟩] }

/-- The start of the replay of `example_engine`, the target in state `tgt0`. -/
def example_sim (rd : replay_data_t T) (v e : biguint_t) (tgt0 : σ) : Sim σ T :=
  { eng := example_engine rd v e, tgt := tgt0, calls := [], expects := [] }

/-- A registry that holds `"reset"` alone, with handle `0`. -/
def reset_only : replay_data_t Nat :=
  { signals := [0], signal_map := [("reset", 0)] }

/-- A log whose STEP counts since the CYCLE record add up to `2 ^ 64`. -/
def wrap_log : List record :=
  [.CYCLE 0, .STEP (2 ^ 64 - 1), .STEP 1]

/-- The locals and the engine after `load_samples` has read `wrap_log`. -/
def wrap_state : load_state Nat :=
  { eng := { replay_t.fresh Nat with samples := [⟨0, [.step_t (2 ^ 64 - 1), .step_t 1]⟩] }
    steps := 0
    sample := some 0 }

/-- The locals and the engine after `load_samples` has read CYCLE 7, STEP 2. -/
def stepped_state : load_state Nat :=
  { eng := { replay_t.fresh Nat with samples := [⟨7, [.step_t 2]⟩] }
    steps := 2
    sample := some 0 }

/-- A target that stores deposits and reads back the value most recently
deposited into a signal (`0` before the first deposit); signals are numbered. -/
def store_target : Target (List (Nat × biguint_t)) Nat :=
  { take_steps := fun st _ => st
    put_value := fun st sig data _ => (sig, data) :: st
    get_value := fun st sig => ((st.lookup sig).getD 0, st) }

/-- An engine at the start of a run against `store_target`. -/
def store_sim (e : replay_t Nat) : Sim (List (Nat × biguint_t)) Nat :=
  { eng := e, tgt := [], calls := [], expects := [] }

/-- The state a run ends in, completed or not. -/
def Run.final {σ T : Type} : Run σ T (Sim σ T) → Sim σ T
  | .ok s => s
  | .abort _ s => s

/-- An engine whose registry holds `"reset"` (handle `0`) and `"a"` (handle
`1`), whose only chain is `["a"]`, loaded with the given Snapshots. -/
def demo_engine (samples : List sample_t) : replay_t Nat :=
  { replay_t.fresh Nat with
    samples := samples
    chains := [["a"]]
    replay_data := { signals := [0, 1], signal_map := [("reset", 0), ("a", 1)] } }

/-- A run in which an Expect fails at cycle 2 and a later Expect succeeds. -/
def verdict_demo : Sim (List (Nat × biguint_t)) Nat :=
  store_sim (demo_engine [⟨0, [.step_t 2, .expect_t 0 0 5, .poke_t 0 0 5, .expect_t 0 0 5]⟩])

/-- A run whose only command is a Force of `7` on `"a"`. -/
def force_demo : Sim (List (Nat × biguint_t)) Nat :=
  store_sim (demo_engine [⟨0, [.force_t 0 0 7]⟩])

/-- A run of two Snapshots with equal labels, the first with a failing Expect. -/
def order_demo : Sim (List (Nat × biguint_t)) Nat :=
  store_sim (demo_engine
    [⟨3, [.step_t 2, .expect_t 0 0 5, .poke_t 0 0 5]⟩, ⟨3, [.load_t 0 0 4 (-1), .step_t 1]⟩])

/-- A run whose second Snapshot holds a Load of the unregistered `"a[12]"`
between a Step and a Poke. -/
def abort_demo : Sim (List (Nat × biguint_t)) Nat :=
  store_sim (demo_engine
    [⟨1, [.poke_t 0 0 3]⟩, ⟨2, [.step_t 2, .load_t 0 0 9 12, .poke_t 0 0 4]⟩, ⟨3, [.step_t 1]⟩])

/-- A log with two CYCLE records of equal label; the first Snapshot meets an
EXPECT at step count 1 and another at step count 2, with a SIGNALS record and
an unrecognized record among its commands. -/
def twice_log : List record :=
  [.SIGNALS 0 "a", .EXPECT 0 0 1, .CYCLE 4, .STEP 1, .EXPECT 0 0 2, .SIGNALS 1 "b", .STEP 1,
   .EXPECT 0 0 3, .other 9, .CYCLE 4, .POKE 0 0 5]

/-- A run on an engine whose registry holds `"a"` (handle `0`) and no
`"reset"`, with no Snapshot. -/
def stray_reset_demo : Sim (List (Nat × biguint_t)) Nat :=
  store_sim { replay_t.fresh Nat with
    chains := [["a"]]
    replay_data := { signals := [0], signal_map := [("a", 0)] } }

/-- A run with a Poke and an indexed Load on registered names. -/
def deposit_demo : Sim (List (Nat × biguint_t)) Nat :=
  store_sim { demo_engine [] with
    replay_data := { signals := [0, 1, 2], signal_map := [("reset", 0), ("a", 1), ("a[3]", 2)] } }

/-- A run on an engine whose registry holds `"reset"` and `"a[3]"` but not
`"a"`, the only name of the only chain. -/
def indexed_demo : Sim (List (Nat × biguint_t)) Nat :=
  store_sim { demo_engine [] with
    replay_data := { signals := [0, 1], signal_map := [("reset", 0), ("a[3]", 1)] } }

/-- A fresh engine whose registry holds `"reset"` (handle `0`) and `"a"`
(handle `1`). -/
def registered_fresh : replay_t Nat :=
  { replay_t.fresh Nat with
    replay_data := { signals := [0, 1], signal_map := [("reset", 0), ("a", 1)] } }

/-- A log of two Snapshots: the first meets an EXPECT before any STEP and one
after a STEP of 2; the second meets one after each of two STEPs of 1, the last
after a POKE of the expected value. -/
def parsed_log : List record :=
  [.SIGNALS 0 "a", .CYCLE 1, .EXPECT 0 0 9, .STEP 2, .EXPECT 0 0 5, .CYCLE 2, .STEP 1,
   .EXPECT 0 0 7, .STEP 1, .POKE 0 0 5, .EXPECT 0 0 5]

/-- The engine after `load_samples` has read `parsed_log` into
`registered_fresh`. -/
def parsed_engine : replay_t Nat :=
  match load_samples registered_fresh parsed_log with
  | .ok e => e
  | .error _ => registered_fresh

end Vocabulary


/-! ## Basic facts -/

section Basics

variable {σ T : Type}

@[simp] theorem Run.bind_ok {α β : Type} (a : α) (k : α → Run σ T β) :
    (Run.ok a : Run σ T α).bind k = k a := rfl

@[simp] theorem Run.bind_abort {α β : Type} (f : Fault) (s : Sim σ T) (k : α → Run σ T β) :
    (Run.abort f s : Run σ T α).bind k = Run.abort f s := rfl

theorem Run.bind_eq_ok {α β : Type} {x : Run σ T α} {k : α → Run σ T β} {b : β} :
    x.bind k = Run.ok b ↔ ∃ a, x = Run.ok a ∧ k a = Run.ok b := by
  cases x with
  | ok a => simp
  | abort f s => simp

theorem Run.bind_congr_ok {α β : Type} {x : Run σ T α} {k1 k2 : α → Run σ T β}
    (h : ∀ a, x = Run.ok a → k1 a = k2 a) : x.bind k1 = x.bind k2 := by
  cases x with
  | ok a => simpa using h a rfl
  | abort f s => rfl

theorem decimal_eq_toString (n : Nat) : decimal n = toString n := rfl

theorem toString_int_of_nonneg (i : Int) (h : 0 ≤ i) : toString i = decimal i.toNat := by
  cases i with
  | ofNat n => rfl
  | negSucc n => exact absurd h (by simp)

theorem signal_id_of_lookup (s : Sim σ T) (node : String) (id : Nat)
    (h : s.eng.replay_data.signal_map.lookup node = some id) :
    signal_id s node = (id, s) := by
  simp [signal_id, map_subscript, h]

theorem handle_of_eq_some {rd : replay_data_t T} {name : String} {sig : T}
    (h : handle_of rd name = some sig) :
    ∃ id, rd.signal_map.lookup name = some id ∧ rd.signals[id]? = some sig := by
  unfold handle_of at h
  cases hl : rd.signal_map.lookup name with
  | none => simp [hl] at h
  | some id => exact ⟨id, rfl, by simpa [hl] using h⟩

theorem reset_of_handle (tg : Target σ T) (s : Sim σ T) (n : Nat) (sig : T)
    (h : handle_of s.eng.replay_data "reset" = some sig) :
    reset tg s n = Run.ok (take_steps tg (put_value tg s sig 1 PUT_VALUE_TYPE.PUT_POKE) n) := by
  obtain ⟨id, hl, hs⟩ := handle_of_eq_some h
  simp [reset, signal_id_of_lookup s "reset" id hl, signal_at, hs]

theorem check_signal_of_lookup (s : Sim σ T) (node : String) (id : Nat)
    (h : s.eng.replay_data.signal_map.lookup node = some id) :
    check_signal s node = Run.ok s := by
  simp [check_signal, map_find, h]

theorem check_signal_of_missing (s : Sim σ T) (node : String)
    (h : s.eng.replay_data.signal_map.lookup node = none) :
    check_signal s node = Run.abort (Fault.assert_failed node) s := by
  simp [check_signal, map_find, h]

theorem load_of_handle (tg : Target σ T) (s : Sim σ T) (node : String) (data : biguint_t)
    (sig : T) (h : handle_of s.eng.replay_data node = some sig) :
    load tg s node data = Run.ok (put_value tg s sig data PUT_VALUE_TYPE.PUT_LOAD) := by
  obtain ⟨id, hl, hs⟩ := handle_of_eq_some h
  simp [load, check_signal_of_lookup s node id hl, signal_id_of_lookup s node id hl,
    signal_at, hs]

theorem poke_of_handle (tg : Target σ T) (s : Sim σ T) (node : String) (data : biguint_t)
    (sig : T) (h : handle_of s.eng.replay_data node = some sig) :
    poke tg s node data = Run.ok (put_value tg s sig data PUT_VALUE_TYPE.PUT_POKE) := by
  obtain ⟨id, hl, hs⟩ := handle_of_eq_some h
  simp [poke, check_signal_of_lookup s node id hl, signal_id_of_lookup s node id hl,
    signal_at, hs]

theorem expect_of_handle (tg : Target σ T) (s : Sim σ T) (node : String)
    (expected : biguint_t) (sig : T) (h : handle_of s.eng.replay_data node = some sig) :
    expect tg s node expected =
      Run.ok ((tg.get_value s.tgt sig).1 == expected || decide (s.eng.cycles ≤ 1),
        { (get_value tg s sig).2 with
          expects := s.expects ++
            [(tg.get_value s.tgt sig).1 == expected || decide (s.eng.cycles ≤ 1)] }) := by
  obtain ⟨id, hl, hs⟩ := handle_of_eq_some h
  simp [expect, check_signal_of_lookup s node id hl, signal_id_of_lookup s node id hl,
    signal_at, hs, get_value]

end Basics


section Frames

variable {σ T : Type}

@[simp] theorem take_steps_eng (tg : Target σ T) (s : Sim σ T) (n : Nat) :
    (take_steps tg s n).eng = s.eng := rfl

@[simp] theorem take_steps_calls (tg : Target σ T) (s : Sim σ T) (n : Nat) :
    (take_steps tg s n).calls = s.calls ++ [Call.take_steps n] := rfl

@[simp] theorem take_steps_expects (tg : Target σ T) (s : Sim σ T) (n : Nat) :
    (take_steps tg s n).expects = s.expects := rfl

@[simp] theorem put_value_eng (tg : Target σ T) (s : Sim σ T) (sig : T) (d : biguint_t)
    (m : PUT_VALUE_TYPE) : (put_value tg s sig d m).eng = s.eng := rfl

@[simp] theorem put_value_calls (tg : Target σ T) (s : Sim σ T) (sig : T) (d : biguint_t)
    (m : PUT_VALUE_TYPE) :
    (put_value tg s sig d m).calls = s.calls ++ [Call.put_value sig d m] := rfl

@[simp] theorem put_value_expects (tg : Target σ T) (s : Sim σ T) (sig : T) (d : biguint_t)
    (m : PUT_VALUE_TYPE) : (put_value tg s sig d m).expects = s.expects := rfl

@[simp] theorem get_value_eng (tg : Target σ T) (s : Sim σ T) (sig : T) :
    (get_value tg s sig).2.eng = s.eng := rfl

@[simp] theorem get_value_calls (tg : Target σ T) (s : Sim σ T) (sig : T) :
    (get_value tg s sig).2.calls = s.calls ++ [Call.get_value sig] := rfl

@[simp] theorem get_value_expects (tg : Target σ T) (s : Sim σ T) (sig : T) :
    (get_value tg s sig).2.expects = s.expects := rfl

@[simp] theorem step_calls (tg : Target σ T) (s : Sim σ T) (n : Nat) :
    (step tg s n).calls = s.calls ++ [Call.take_steps n] := rfl

@[simp] theorem step_expects (tg : Target σ T) (s : Sim σ T) (n : Nat) :
    (step tg s n).expects = s.expects := rfl

@[simp] theorem step_eng (tg : Target σ T) (s : Sim σ T) (n : Nat) :
    (step tg s n).eng = { s.eng with cycles := (s.eng.cycles + n) % WORD } := rfl

/-- The full case analysis of `reset`. -/
theorem reset_eq (tg : Target σ T) (s : Sim σ T) (n : Nat) :
    reset tg s n =
      match (signal_id s "reset").2.eng.replay_data.signals[(signal_id s "reset").1]? with
      | some sig =>
        Run.ok (take_steps tg
          (put_value tg (signal_id s "reset").2 sig 1 PUT_VALUE_TYPE.PUT_POKE) n)
      | none => Run.abort Fault.out_of_range (signal_id s "reset").2 := by
  unfold reset signal_at
  cases h : (signal_id s "reset").2.eng.replay_data.signals[(signal_id s "reset").1]? <;>
    simp [h]

theorem reset_ok_inv {tg : Target σ T} {s s' : Sim σ T} {n : Nat}
    (h : reset tg s n = Run.ok s') :
    ∃ sig, s' = take_steps tg
      (put_value tg (signal_id s "reset").2 sig 1 PUT_VALUE_TYPE.PUT_POKE) n := by
  rw [reset_eq] at h
  split at h
  · next sig _ => exact ⟨sig, by injection h with h; exact h.symm⟩
  · cases h

/-- The full case analysis of a guarded deposit (`load`, `poke`, `force`). -/
theorem load_eq (tg : Target σ T) (s : Sim σ T) (node : String) (data : biguint_t) :
    load tg s node data =
      match s.eng.replay_data.signal_map.lookup node with
      | none => Run.abort (Fault.assert_failed node) s
      | some id =>
        match s.eng.replay_data.signals[id]? with
        | some sig => Run.ok (put_value tg s sig data PUT_VALUE_TYPE.PUT_LOAD)
        | none => Run.abort Fault.out_of_range s := by
  cases hl : s.eng.replay_data.signal_map.lookup node with
  | none => simp [load, check_signal_of_missing s node hl]
  | some id =>
    cases hs : s.eng.replay_data.signals[id]? <;>
      simp [load, check_signal_of_lookup s node id hl, signal_id_of_lookup s node id hl,
        signal_at, hs]

theorem poke_eq (tg : Target σ T) (s : Sim σ T) (node : String) (data : biguint_t) :
    poke tg s node data =
      match s.eng.replay_data.signal_map.lookup node with
      | none => Run.abort (Fault.assert_failed node) s
      | some id =>
        match s.eng.replay_data.signals[id]? with
        | some sig => Run.ok (put_value tg s sig data PUT_VALUE_TYPE.PUT_POKE)
        | none => Run.abort Fault.out_of_range s := by
  cases hl : s.eng.replay_data.signal_map.lookup node with
  | none => simp [poke, check_signal_of_missing s node hl]
  | some id =>
    cases hs : s.eng.replay_data.signals[id]? <;>
      simp [poke, check_signal_of_lookup s node id hl, signal_id_of_lookup s node id hl,
        signal_at, hs]

theorem expect_eq (tg : Target σ T) (s : Sim σ T) (node : String) (expected : biguint_t) :
    expect tg s node expected =
      match s.eng.replay_data.signal_map.lookup node with
      | none => Run.abort (Fault.assert_failed node) s
      | some id =>
        match s.eng.replay_data.signals[id]? with
        | some sig =>
          Run.ok ((tg.get_value s.tgt sig).1 == expected || decide (s.eng.cycles ≤ 1),
            { (get_value tg s sig).2 with
              expects := s.expects ++
                [(tg.get_value s.tgt sig).1 == expected || decide (s.eng.cycles ≤ 1)] })
        | none => Run.abort Fault.out_of_range s := by
  cases hl : s.eng.replay_data.signal_map.lookup node with
  | none => simp [expect, check_signal_of_missing s node hl]
  | some id =>
    cases hs : s.eng.replay_data.signals[id]? <;>
      simp [expect, check_signal_of_lookup s node id hl, signal_id_of_lookup s node id hl,
        signal_at, hs, get_value]

/-- The full case analysis of `chains[type][id]`. -/
theorem chain_at_eq (s : Sim σ T) (type id : Nat) :
    chain_at s type id =
      match resolve s.eng.chains type id with
      | some name => Run.ok name
      | none => Run.abort Fault.out_of_range s := by
  unfold chain_at resolve
  cases h1 : s.eng.chains[type]? with
  | none => simp
  | some chain => cases h2 : chain[id]? <;> simp [h2]

/-- The registry name `replay()` forms for a Load. -/
theorem exec_load_eq (tg : Target σ T) (s : Sim σ T) (type id : Nat) (value : biguint_t)
    (idx : Int) :
    exec_cmd tg s (.load_t type id value idx) =
      (chain_at s type id).bind fun name => load tg s (load_name name idx) value := by
  unfold exec_cmd load_name
  by_cases h : idx < 0
  · have h' : ¬ (0 ≤ idx) := by omega
    simp [h, h']
  · have h' : 0 ≤ idx := by omega
    simp [h, h', toString_int_of_nonneg idx h']

end Frames


section Commands

variable {σ T : Type}

theorem same_tables_refl (e : replay_t T) : same_tables e e :=
  ⟨rfl, rfl, rfl, rfl, rfl⟩

theorem same_tables_trans {e1 e2 e3 : replay_t T} (h12 : same_tables e1 e2)
    (h23 : same_tables e2 e3) : same_tables e1 e3 := by
  obtain ⟨a1, a2, a3, a4, a5⟩ := h12
  obtain ⟨b1, b2, b3, b4, b5⟩ := h23
  exact ⟨b1.trans a1, b2.trans a2, b3.trans a3, b4.trans a4, b5.trans a5⟩

theorem cmd_resolves_congr {e e' : replay_t T} (h : same_tables e e') (cmd : sample_inst_t) :
    cmd_resolves e' cmd = cmd_resolves e cmd := by
  unfold cmd_resolves
  rw [h.2.1, h.2.2.1]

theorem cmd_calls_congr {e e' : replay_t T} (h : same_tables e e') (cmd : sample_inst_t) :
    cmd_calls e' cmd = cmd_calls e cmd := by
  unfold cmd_calls
  rw [h.2.1, h.2.2.1]

theorem reset_calls_congr {e e' : replay_t T} (h : same_tables e e') (n : Nat) :
    reset_calls e' n = reset_calls e n := by
  unfold reset_calls
  rw [h.2.2.1]

theorem cmds_calls_congr {e e' : replay_t T} (h : same_tables e e')
    (cmds : List sample_inst_t) : cmds_calls e' cmds = cmds_calls e cmds := by
  unfold cmds_calls
  congr 1
  exact List.map_congr_left fun c _ => cmd_calls_congr h c

/-- What a completed command leaves behind. -/
theorem exec_cmd_ok_inv {tg : Target σ T} {s s' : Sim σ T} {cmd : sample_inst_t}
    (h : exec_cmd tg s cmd = Run.ok s') :
    same_tables s.eng s'.eng ∧ s'.calls = s.calls ++ cmd_calls s.eng cmd ∧
      s'.eng.cycles = cmd_cycles s.eng.cycles cmd ∧
      ∃ rs, s'.expects = s.expects ++ rs ∧ s'.eng.pass = (s.eng.pass && rs.all id) := by
  cases cmd with
  | step_t n =>
    simp only [exec_cmd, Run.ok.injEq] at h
    subst h
    exact ⟨⟨rfl, rfl, rfl, rfl, rfl⟩, rfl, rfl, [], by simp, by simp⟩
  | force_t type id value =>
    simp only [exec_cmd, Run.ok.injEq] at h
    subst h
    exact ⟨same_tables_refl _, by simp [cmd_calls], rfl, [], by simp, by simp⟩
  | load_t type id value idx =>
    rw [exec_load_eq, chain_at_eq] at h
    cases hr : resolve s.eng.chains type id with
    | none => simp [hr] at h
    | some name =>
      simp only [hr, Run.bind_ok, load_eq] at h
      cases hl : s.eng.replay_data.signal_map.lookup (load_name name idx) with
      | none => simp [hl] at h
      | some k =>
        cases hs : s.eng.replay_data.signals[k]? with
        | none => simp [hl, hs] at h
        | some sig =>
          simp only [hl, hs, Run.ok.injEq] at h
          subst h
          refine ⟨same_tables_refl _, ?_, rfl, [], by simp, by simp⟩
          simp [cmd_calls, cmd_signal, hr, handle_of, hl, hs]
  | poke_t type id value =>
    simp only [exec_cmd, chain_at_eq] at h
    cases hr : resolve s.eng.chains type id with
    | none => simp [hr] at h
    | some name =>
      simp only [hr, Run.bind_ok, poke_eq] at h
      cases hl : s.eng.replay_data.signal_map.lookup name with
      | none => simp [hl] at h
      | some k =>
        cases hs : s.eng.replay_data.signals[k]? with
        | none => simp [hl, hs] at h
        | some sig =>
          simp only [hl, hs, Run.ok.injEq] at h
          subst h
          refine ⟨same_tables_refl _, ?_, rfl, [], by simp, by simp⟩
          simp [cmd_calls, cmd_signal, hr, handle_of, hl, hs]
  | expect_t type id value =>
    simp only [exec_cmd, chain_at_eq] at h
    cases hr : resolve s.eng.chains type id with
    | none => simp [hr] at h
    | some name =>
      simp only [hr, Run.bind_ok, expect_eq] at h
      cases hl : s.eng.replay_data.signal_map.lookup name with
      | none => simp [hl] at h
      | some k =>
        cases hs : s.eng.replay_data.signals[k]? with
        | none => simp [hl, hs] at h
        | some sig =>
          simp only [hl, hs, Run.bind_ok, Run.ok.injEq] at h
          subst h
          refine ⟨⟨rfl, rfl, rfl, rfl, rfl⟩, ?_, rfl,
            [(tg.get_value s.tgt sig).1 == value || decide (s.eng.cycles ≤ 1)], rfl, ?_⟩
          · simp [cmd_calls, cmd_signal, hr, handle_of, hl, hs]
          · simp

/-- A command whose lookup resolves completes. -/
theorem exec_cmd_of_resolves (tg : Target σ T) (s : Sim σ T) (cmd : sample_inst_t)
    (h : cmd_resolves s.eng cmd = true) : ∃ s', exec_cmd tg s cmd = Run.ok s' := by
  cases cmd with
  | step_t n => exact ⟨_, rfl⟩
  | force_t type id value => exact ⟨_, rfl⟩
  | load_t type id value idx =>
    rw [exec_load_eq, chain_at_eq]
    simp only [cmd_resolves, looks_up, cmd_signal, Bool.not_true, Bool.false_or] at h
    cases hr : resolve s.eng.chains type id with
    | none => simp [hr] at h
    | some name =>
      simp only [hr, Option.map_some'] at h
      obtain ⟨sig, hsig⟩ := Option.isSome_iff_exists.mp h
      simp only [Run.bind_ok, load_of_handle tg s _ value sig hsig]
      exact ⟨_, rfl⟩
  | poke_t type id value =>
    simp only [exec_cmd, chain_at_eq]
    simp only [cmd_resolves, looks_up, cmd_signal, Bool.not_true, Bool.false_or] at h
    cases hr : resolve s.eng.chains type id with
    | none => simp [hr] at h
    | some name =>
      simp only [hr] at h
      obtain ⟨sig, hsig⟩ := Option.isSome_iff_exists.mp h
      simp only [Run.bind_ok, poke_of_handle tg s _ value sig hsig]
      exact ⟨_, rfl⟩
  | expect_t type id value =>
    simp only [exec_cmd, chain_at_eq]
    simp only [cmd_resolves, looks_up, cmd_signal, Bool.not_true, Bool.false_or] at h
    cases hr : resolve s.eng.chains type id with
    | none => simp [hr] at h
    | some name =>
      simp only [hr] at h
      obtain ⟨sig, hsig⟩ := Option.isSome_iff_exists.mp h
      simp only [Run.bind_ok, expect_of_handle tg s _ value sig hsig]
      exact ⟨_, rfl⟩

end Commands


section Loops

variable {σ T : Type}

@[simp] theorem signal_id_samples (s : Sim σ T) (node : String) :
    (signal_id s node).2.eng.samples = s.eng.samples := rfl

@[simp] theorem signal_id_chains (s : Sim σ T) (node : String) :
    (signal_id s node).2.eng.chains = s.eng.chains := rfl

@[simp] theorem signal_id_signals (s : Sim σ T) (node : String) :
    (signal_id s node).2.eng.replay_data.signals = s.eng.replay_data.signals := rfl

@[simp] theorem signal_id_cycles (s : Sim σ T) (node : String) :
    (signal_id s node).2.eng.cycles = s.eng.cycles := rfl

@[simp] theorem signal_id_pass (s : Sim σ T) (node : String) :
    (signal_id s node).2.eng.pass = s.eng.pass := rfl

@[simp] theorem signal_id_calls (s : Sim σ T) (node : String) :
    (signal_id s node).2.calls = s.calls := rfl

@[simp] theorem signal_id_expects (s : Sim σ T) (node : String) :
    (signal_id s node).2.expects = s.expects := rfl

theorem reset_samples {tg : Target σ T} {s s' : Sim σ T} {n : Nat}
    (h : reset tg s n = Run.ok s') : s'.eng.samples = s.eng.samples := by
  obtain ⟨sig, rfl⟩ := reset_ok_inv h
  simp

theorem run_cmds_samples {tg : Target σ T} :
    ∀ (cmds : List sample_inst_t) {s s' : Sim σ T},
      run_cmds tg cmds s = Run.ok s' → s'.eng.samples = s.eng.samples
  | [], s, s', h => by
    simp only [run_cmds, Run.ok.injEq] at h
    rw [h]
  | cmd :: rest, s, s', h => by
    simp only [run_cmds] at h
    obtain ⟨s1, h1, h2⟩ := Run.bind_eq_ok.mp h
    rw [run_cmds_samples rest h2, (exec_cmd_ok_inv h1).1.1]

/-- The inner loop visits the commands from position `i` on, in order. -/
theorem cmd_loop_eq (tg : Target σ T) (cmds : List sample_inst_t) :
    ∀ (fuel i : Nat) (s : Sim σ T), cmds.length ≤ fuel + i →
      cmd_loop tg cmds fuel i s = run_cmds tg (cmds.drop i) s
  | 0, i, s, h => by
    have hi : cmds.length ≤ i := by omega
    simp [cmd_loop, List.drop_eq_nil_of_le hi, run_cmds]
  | fuel + 1, i, s, h => by
    by_cases hi : i < cmds.length
    · have hd : cmds.drop i = cmds[i] :: cmds.drop (i + 1) := List.drop_eq_getElem_cons hi
      have hg : cmds[i]? = some cmds[i] := List.getElem?_eq_getElem hi
      simp only [cmd_loop, hg, hd, run_cmds]
      exact Run.bind_congr_ok fun s1 _ => cmd_loop_eq tg cmds fuel (i + 1) s1 (by omega)
    · have hi' : cmds.length ≤ i := by omega
      have hg : cmds[i]? = none := List.getElem?_eq_none hi'
      simp [cmd_loop, hg, List.drop_eq_nil_of_le hi', run_cmds]

/-- The outer loop visits the Snapshots from position `k` on, in order. -/
theorem sample_loop_eq (tg : Target σ T) :
    ∀ (fuel k : Nat) (s : Sim σ T), s.eng.samples.length ≤ fuel + k →
      sample_loop tg fuel k s = run_samples tg (s.eng.samples.drop k) s
  | 0, k, s, h => by
    have hk : s.eng.samples.length ≤ k := by omega
    simp [sample_loop, List.drop_eq_nil_of_le hk, run_samples]
  | fuel + 1, k, s, h => by
    by_cases hk : k < s.eng.samples.length
    · have hd : s.eng.samples.drop k = s.eng.samples[k] :: s.eng.samples.drop (k + 1) :=
        List.drop_eq_getElem_cons hk
      have hg : s.eng.samples[k]? = some s.eng.samples[k] := List.getElem?_eq_getElem hk
      simp only [sample_loop, hg, hd, run_samples]
      have hc : ∀ s1, cmd_loop tg s.eng.samples[k].cmds s.eng.samples[k].cmds.length 0 s1 =
          run_cmds tg s.eng.samples[k].cmds s1 := fun s1 => by
        simpa using cmd_loop_eq tg s.eng.samples[k].cmds s.eng.samples[k].cmds.length 0 s1
          (by omega)
      simp only [hc]
      refine Run.bind_congr_ok fun s2 h2 => ?_
      obtain ⟨s1, h1, h12⟩ := Run.bind_eq_ok.mp h2
      have hs : s2.eng.samples = s.eng.samples := by
        rw [run_cmds_samples _ h12, reset_samples h1]
      rw [sample_loop_eq tg fuel (k + 1) s2 (by rw [hs]; omega), hs]
    · have hk' : s.eng.samples.length ≤ k := by omega
      have hg : s.eng.samples[k]? = none := List.getElem?_eq_none hk'
      simp [sample_loop, hg, List.drop_eq_nil_of_le hk', run_samples]

/-- The two loops of `replay()` run the Snapshots and their commands in list
order. -/
theorem replay_eq_in_order (tg : Target σ T) (s : Sim σ T) :
    replay tg s = replay_in_order tg s := by
  unfold replay replay_in_order
  congr 1
  refine Run.bind_congr_ok fun s1 _ => ?_
  simpa using sample_loop_eq tg s1.eng.samples.length 0 s1 (by omega)

/-- A relation that every `reset`, every command and the final assignment of
`is_exit` respect holds between the two ends of a completed replay. -/
theorem replay_ok_induct (tg : Target σ T) (R : Sim σ T → Sim σ T → Prop)
    (hrefl : ∀ s, R s s) (htrans : ∀ a b c, R a b → R b c → R a c)
    (hreset : ∀ s n s', reset tg s n = Run.ok s' → R s s')
    (hcmd : ∀ s cmd s', exec_cmd tg s cmd = Run.ok s' → R s s')
    (hexit : ∀ s : Sim σ T, R s { s with eng := { s.eng with is_exit := true } })
    {s s' : Sim σ T} (h : replay tg s = Run.ok s') : R s s' := by
  have hcmds : ∀ (cmds : List sample_inst_t) (a b : Sim σ T),
      run_cmds tg cmds a = Run.ok b → R a b := by
    intro cmds
    induction cmds with
    | nil =>
      intro a b hab
      simp only [run_cmds, Run.ok.injEq] at hab
      exact hab ▸ hrefl a
    | cons cmd rest ih =>
      intro a b hab
      simp only [run_cmds] at hab
      obtain ⟨a1, h1, h2⟩ := Run.bind_eq_ok.mp hab
      exact htrans _ _ _ (hcmd _ _ _ h1) (ih _ _ h2)
  have hsamples : ∀ (samples : List sample_t) (a b : Sim σ T),
      run_samples tg samples a = Run.ok b → R a b := by
    intro samples
    induction samples with
    | nil =>
      intro a b hab
      simp only [run_samples, Run.ok.injEq] at hab
      exact hab ▸ hrefl a
    | cons sample rest ih =>
      intro a b hab
      simp only [run_samples] at hab
      obtain ⟨a2, h12, h3⟩ := Run.bind_eq_ok.mp hab
      obtain ⟨a1, h1, h2⟩ := Run.bind_eq_ok.mp h12
      exact htrans _ _ _ (htrans _ _ _ (hreset _ _ _ h1) (hcmds _ _ _ h2)) (ih _ _ h3)
  rw [replay_eq_in_order] at h
  unfold replay_in_order at h
  obtain ⟨s2, h12, h3⟩ := Run.bind_eq_ok.mp h
  obtain ⟨s1, h1, h2⟩ := Run.bind_eq_ok.mp h12
  simp only [Run.ok.injEq] at h3
  subst h3
  exact htrans _ _ _ (htrans _ _ _ (hreset _ _ _ h1) (hsamples _ _ _ h2)) (hexit s2)

end Loops


section Resolved

variable {σ T : Type}

theorem run_cmds_ok_inv {tg : Target σ T} :
    ∀ (cmds : List sample_inst_t) {s s' : Sim σ T}, run_cmds tg cmds s = Run.ok s' →
      same_tables s.eng s'.eng ∧ s'.calls = s.calls ++ cmds_calls s.eng cmds ∧
        s'.eng.cycles = cmds_cycles s.eng.cycles cmds
  | [], s, s', h => by
    simp only [run_cmds, Run.ok.injEq] at h
    subst h
    exact ⟨same_tables_refl _, by simp [cmds_calls], rfl⟩
  | cmd :: rest, s, s', h => by
    simp only [run_cmds] at h
    obtain ⟨s1, h1, h2⟩ := Run.bind_eq_ok.mp h
    obtain ⟨ht1, hc1, hy1, _⟩ := exec_cmd_ok_inv h1
    obtain ⟨ht2, hc2, hy2⟩ := run_cmds_ok_inv rest h2
    refine ⟨same_tables_trans ht1 ht2, ?_, ?_⟩
    · rw [hc2, hc1, cmds_calls_congr ht1]
      simp [cmds_calls]
    · rw [hy2, hy1]
      simp [cmds_cycles]

theorem run_cmds_of_resolves (tg : Target σ T) :
    ∀ (cmds : List sample_inst_t) (s : Sim σ T),
      (∀ cmd ∈ cmds, cmd_resolves s.eng cmd = true) → ∃ s', run_cmds tg cmds s = Run.ok s'
  | [], s, _ => ⟨s, rfl⟩
  | cmd :: rest, s, h => by
    obtain ⟨s1, h1⟩ := exec_cmd_of_resolves tg s cmd (h cmd (List.mem_cons_self _ _))
    have ht := (exec_cmd_ok_inv h1).1
    obtain ⟨s2, h2⟩ := run_cmds_of_resolves tg rest s1 fun c hc => by
      rw [cmd_resolves_congr ht]
      exact h c (List.mem_cons_of_mem _ hc)
    exact ⟨s2, by simp [run_cmds, h1, h2]⟩

theorem reset_calls_of_handle {e : replay_t T} {sig : T}
    (h : handle_of e.replay_data "reset" = some sig) (n : Nat) :
    reset_calls e n = [Call.put_value sig 1 PUT_VALUE_TYPE.PUT_POKE, Call.take_steps n] := by
  simp [reset_calls, h]

theorem handle_of_congr {e e' : replay_t T} (h : same_tables e e') (name : String) :
    handle_of e'.replay_data name = handle_of e.replay_data name := by
  rw [h.2.2.1]

theorem run_samples_ok_inv {tg : Target σ T} :
    ∀ (samples : List sample_t) {s s' : Sim σ T},
      (handle_of s.eng.replay_data "reset").isSome = true →
      run_samples tg samples s = Run.ok s' →
      same_tables s.eng s'.eng ∧ s'.calls = s.calls ++ samples_calls s.eng samples ∧
        s'.eng.cycles = samples_cycles s.eng.cycles samples
  | [], s, s', _, h => by
    simp only [run_samples, Run.ok.injEq] at h
    subst h
    exact ⟨same_tables_refl _, by simp [samples_calls], rfl⟩
  | sample :: rest, s, s', hr, h => by
    obtain ⟨sig, hsig⟩ := Option.isSome_iff_exists.mp hr
    simp only [run_samples, reset_of_handle tg s 5 sig hsig, Run.bind_ok] at h
    obtain ⟨s2, h2, h3⟩ := Run.bind_eq_ok.mp h
    obtain ⟨ht2, hc2, hy2⟩ := run_cmds_ok_inv sample.cmds h2
    have ht2' : same_tables s.eng s2.eng := ht2
    have hr2 : (handle_of s2.eng.replay_data "reset").isSome = true := by
      rw [handle_of_congr ht2']
      exact hr
    obtain ⟨ht3, hc3, hy3⟩ := run_samples_ok_inv rest hr2 h3
    refine ⟨same_tables_trans ht2' ht3, ?_, ?_⟩
    · rw [hc3, hc2]
      have e1 : samples_calls s2.eng rest = samples_calls s.eng rest := by
        unfold samples_calls
        congr 1
        refine List.map_congr_left fun smp _ => ?_
        rw [reset_calls_congr ht2', cmds_calls_congr ht2']
      have e2 : cmds_calls (take_steps tg
          (put_value tg s sig 1 PUT_VALUE_TYPE.PUT_POKE) 5).eng sample.cmds =
          cmds_calls s.eng sample.cmds := rfl
      rw [e1, e2]
      simp [samples_calls, reset_calls_of_handle hsig]
    · rw [hy3, hy2]
      simp [samples_cycles]

theorem run_samples_of_resolves (tg : Target σ T) :
    ∀ (samples : List sample_t) (s : Sim σ T),
      (handle_of s.eng.replay_data "reset").isSome = true →
      (∀ sample ∈ samples, ∀ cmd ∈ sample.cmds, cmd_resolves s.eng cmd = true) →
      ∃ s', run_samples tg samples s = Run.ok s'
  | [], s, _, _ => ⟨s, rfl⟩
  | sample :: rest, s, hr, h => by
    obtain ⟨sig, hsig⟩ := Option.isSome_iff_exists.mp hr
    obtain ⟨s2, h2⟩ := run_cmds_of_resolves tg sample.cmds
      (take_steps tg (put_value tg s sig 1 PUT_VALUE_TYPE.PUT_POKE) 5)
      (h sample (List.mem_cons_self _ _))
    have ht2 : same_tables s.eng s2.eng := (run_cmds_ok_inv sample.cmds h2).1
    obtain ⟨s3, h3⟩ := run_samples_of_resolves tg rest s2
      (by rw [handle_of_congr ht2]; exact hr)
      (fun smp hs c hc => by
        rw [cmd_resolves_congr ht2]
        exact h smp (List.mem_cons_of_mem _ hs) c hc)
    exact ⟨s3, by simp [run_samples, reset_of_handle tg s 5 sig hsig, h2, h3]⟩

theorem all_resolve_iff (e : replay_t T) :
    all_resolve e = true ↔ (handle_of e.replay_data "reset").isSome = true ∧
      ∀ sample ∈ e.samples, ∀ cmd ∈ sample.cmds, cmd_resolves e cmd = true := by
  simp [all_resolve, List.all_eq_true]

/-- A replay whose lookups all resolve completes; its calls and its cycle
counter are determined by the engine alone. -/
theorem replay_of_all_resolve (tg : Target σ T) (s : Sim σ T)
    (h : all_resolve s.eng = true) :
    ∃ s', replay tg s = Run.ok s' ∧
      s'.calls = s.calls ++ (reset_calls s.eng 5 ++ samples_calls s.eng s.eng.samples) ∧
      s'.eng.cycles = samples_cycles s.eng.cycles s.eng.samples ∧
      s'.eng.is_exit = true ∧ s'.eng.samples = s.eng.samples ∧
      s'.eng.chains = s.eng.chains ∧ s'.eng.replay_data = s.eng.replay_data := by
  obtain ⟨hr, hc⟩ := (all_resolve_iff s.eng).mp h
  obtain ⟨sig, hsig⟩ := Option.isSome_iff_exists.mp hr
  obtain ⟨s2, h2⟩ := run_samples_of_resolves tg s.eng.samples
    (take_steps tg (put_value tg s sig 1 PUT_VALUE_TYPE.PUT_POKE) 5) hr hc
  obtain ⟨ht, hcalls, hcyc⟩ := run_samples_ok_inv s.eng.samples
    (s := take_steps tg (put_value tg s sig 1 PUT_VALUE_TYPE.PUT_POKE) 5) hr h2
  have ht' : same_tables s.eng s2.eng := ht
  refine ⟨{ s2 with eng := { s2.eng with is_exit := true } }, ?_, ?_, ?_, rfl,
    ht'.1, ht'.2.1, ht'.2.2.1⟩
  · rw [replay_eq_in_order]
    simp [replay_in_order, reset_of_handle tg s 5 sig hsig, h2]
  · show s2.calls = _
    rw [hcalls]
    have e1 : samples_calls (take_steps tg
        (put_value tg s sig 1 PUT_VALUE_TYPE.PUT_POKE) 5).eng s.eng.samples =
        samples_calls s.eng s.eng.samples := rfl
    rw [e1]
    simp [reset_calls_of_handle hsig]
  · exact hcyc

end Resolved


section Claims

variable {σ T : Type}

/-- C1: on a replay that completes, the verdict afterwards is the verdict
before AND the conjunction of the results of all Expects evaluated during the
run (the values `expect` returned, in order); so from a true verdict the final
verdict is true iff every Expect evaluated ok, one failed Expect makes it
false whatever the others return, and a false verdict stays false. -/
theorem replay_verdict_conjunction (tg : Target σ T) (s s' : Sim σ T)
    (h : replay tg s = Run.ok s') :
    ∃ rs, s'.expects = s.expects ++ rs ∧ s'.eng.pass = (s.eng.pass && rs.all id) ∧
      (s.eng.pass = true → (s'.eng.pass = true ↔ ∀ r ∈ rs, r = true)) ∧
      (false ∈ rs → s'.eng.pass = false) ∧
      (s.eng.pass = false → s'.eng.pass = false) := by
  have key : ∃ rs, s'.expects = s.expects ++ rs ∧ s'.eng.pass = (s.eng.pass && rs.all id) := by
    refine replay_ok_induct tg
      (fun a b => ∃ rs, b.expects = a.expects ++ rs ∧ b.eng.pass = (a.eng.pass && rs.all id))
      ?_ ?_ ?_ ?_ ?_ h
    · exact fun a => ⟨[], by simp, by simp⟩
    · rintro a b c ⟨r1, e1, p1⟩ ⟨r2, e2, p2⟩
      exact ⟨r1 ++ r2, by rw [e2, e1, List.append_assoc],
        by rw [p2, p1, List.all_append, Bool.and_assoc]⟩
    · intro a n b hab
      obtain ⟨sig, rfl⟩ := reset_ok_inv hab
      exact ⟨[], by simp, by simp⟩
    · intro a cmd b hab
      exact (exec_cmd_ok_inv hab).2.2.2
    · exact fun a => ⟨[], by simp, by simp⟩
  obtain ⟨rs, he, hp⟩ := key
  refine ⟨rs, he, hp, ?_, ?_, ?_⟩
  · intro h1
    rw [hp, h1]
    simp [List.all_eq_true]
  · intro hf
    rw [hp]
    have : rs.all id = false := by
      rw [List.all_eq_false]
      exact ⟨false, hf, by simp⟩
    simp [this]
  · intro h0
    rw [hp, h0]
    rfl

/-- C1, evaluated: an Expect that fails at cycle 2 is followed by a Poke and
an Expect that succeeds; the run completes and the verdict ends false. -/
theorem replay_verdict_conjunction_witness :
    replay store_target verdict_demo = Run.ok (Run.final (replay store_target verdict_demo)) ∧
    (Run.final (replay store_target verdict_demo)).expects = [false, true] ∧
    ∃ rs, (Run.final (replay store_target verdict_demo)).expects = verdict_demo.expects ++ rs ∧
      (Run.final (replay store_target verdict_demo)).eng.pass
        = (verdict_demo.eng.pass && rs.all id) ∧
      (verdict_demo.eng.pass = true →
        ((Run.final (replay store_target verdict_demo)).eng.pass = true
          ↔ ∀ r ∈ rs, r = true)) ∧
      (false ∈ rs → (Run.final (replay store_target verdict_demo)).eng.pass = false) ∧
      (verdict_demo.eng.pass = false →
        (Run.final (replay store_target verdict_demo)).eng.pass = false) :=
  ⟨rfl, by decide, replay_verdict_conjunction store_target verdict_demo _ rfl⟩

/-- C2: for a name registered with handle `sig`, `expect` completes and
returns true iff the value read from the target for `sig` equals the expected
value or the cycle counter is at most 1: always true when the counter is at
most 1, exactly `observed == expected` when it is greater.  It makes the one
call `get_value(sig)` and leaves every engine member, the cycle counter and
the verdict among them, as it was. -/
theorem expect_comparison_rule (tg : Target σ T) (s : Sim σ T) (node : String)
    (expected : biguint_t) (sig : T) (h : handle_of s.eng.replay_data node = some sig) :
    ∃ ok s', expect tg s node expected = Run.ok (ok, s') ∧
      (ok = true ↔ ((tg.get_value s.tgt sig).1 = expected ∨ s.eng.cycles ≤ 1)) ∧
      (s.eng.cycles ≤ 1 → ok = true) ∧
      (1 < s.eng.cycles → ok = decide ((tg.get_value s.tgt sig).1 = expected)) ∧
      s'.eng = s.eng ∧ s'.calls = s.calls ++ [Call.get_value sig] := by
  refine ⟨_, _, expect_of_handle tg s node expected sig h, ?_, ?_, ?_, rfl, rfl⟩
  · simp
  · intro hc
    simp [hc]
  · intro hc
    have : ¬ s.eng.cycles ≤ 1 := by omega
    simp [this, beq_eq_decide]

/-- C2, evaluated: at cycle 0 an Expect of 5 on a signal that reads 0. -/
theorem expect_comparison_rule_witness :
    handle_of verdict_demo.eng.replay_data "a" = some 1 ∧
    ∃ ok s', expect store_target verdict_demo "a" 5 = Run.ok (ok, s') ∧
      (ok = true ↔ ((store_target.get_value verdict_demo.tgt 1).1 = 5 ∨
        verdict_demo.eng.cycles ≤ 1)) ∧
      (verdict_demo.eng.cycles ≤ 1 → ok = true) ∧
      (1 < verdict_demo.eng.cycles →
        ok = decide ((store_target.get_value verdict_demo.tgt 1).1 = 5)) ∧
      s'.eng = verdict_demo.eng ∧ s'.calls = verdict_demo.calls ++ [Call.get_value 1] :=
  ⟨rfl, expect_comparison_rule store_target verdict_demo "a" 5 1 rfl⟩

/-- C3, at the failing input: a Snapshot whose only command is
Force(0, 0, 7), with `chains[0][0] = "a"` registered under handle 1.  The
replay completes having made only the calls of the two `reset(5)`: no
`put_value` with `PUT_FORCE` is made, although `force` called directly on the
same state deposits 7 on handle 1 with `PUT_FORCE`. -/
theorem replay_never_forces :
    replay store_target force_demo = Run.ok (Run.final (replay store_target force_demo)) ∧
    (Run.final (replay store_target force_demo)).calls =
      [Call.put_value 0 1 PUT_VALUE_TYPE.PUT_POKE, Call.take_steps 5,
       Call.put_value 0 1 PUT_VALUE_TYPE.PUT_POKE, Call.take_steps 5] ∧
    Call.put_value 1 7 PUT_VALUE_TYPE.PUT_FORCE ∉
      (Run.final (replay store_target force_demo)).calls ∧
    (Run.final (force store_target force_demo "a" 7)).calls =
      [Call.put_value 1 7 PUT_VALUE_TYPE.PUT_FORCE] :=
  ⟨rfl, by decide, by decide, by decide⟩

/-- C5: when every signal lookup of the Snapshot list resolves, two runs that
start from the same engine and call history on any two targets, in any two
target states, both complete, make the same sequence of primitive calls (the
calls of `reset(5)`, then for each Snapshot those of `reset(5)` and of its
commands in order, whatever `get_value` returned), end with the same cycle
counter, and both end with `done()` true. -/
theorem replay_calls_independent_of_target {σ1 σ2 : Type} (tg1 : Target σ1 T)
    (tg2 : Target σ2 T) (s1 : Sim σ1 T) (s2 : Sim σ2 T) (heng : s2.eng = s1.eng)
    (hcalls : s2.calls = s1.calls) (hres : all_resolve s1.eng = true) :
    ∃ r1 r2, replay tg1 s1 = Run.ok r1 ∧ replay tg2 s2 = Run.ok r2 ∧
      r1.calls = r2.calls ∧
      r1.calls = s1.calls ++ (reset_calls s1.eng 5 ++ samples_calls s1.eng s1.eng.samples) ∧
      r1.eng.cycles = r2.eng.cycles ∧ done r1 = true ∧ done r2 = true := by
  obtain ⟨r1, h1, c1, y1, d1, _⟩ := replay_of_all_resolve tg1 s1 hres
  obtain ⟨r2, h2, c2, y2, d2, _⟩ := replay_of_all_resolve tg2 s2 (by rw [heng]; exact hres)
  refine ⟨r1, r2, h1, h2, ?_, c1, ?_, d1, d2⟩
  · rw [c1, c2, heng, hcalls]
  · rw [y1, y2, heng]

/-- C5, evaluated: the same Snapshots against a target that reads 0 from
signal 1 and against one that reads 5 there; the first Expect fails in one run
and succeeds in the other. -/
theorem replay_calls_independent_of_target_witness :
    all_resolve order_demo.eng = true ∧
    (Run.final (replay store_target order_demo)).eng.pass = false ∧
    (Run.final (replay store_target { order_demo with tgt := [(1, 5)] })).eng.pass = true ∧
    ∃ r1 r2, replay store_target order_demo = Run.ok r1 ∧
      replay store_target { order_demo with tgt := [(1, 5)] } = Run.ok r2 ∧
      r1.calls = r2.calls ∧
      r1.calls = order_demo.calls ++
        (reset_calls order_demo.eng 5 ++ samples_calls order_demo.eng order_demo.eng.samples) ∧
      r1.eng.cycles = r2.eng.cycles ∧ done r1 = true ∧ done r2 = true :=
  ⟨by decide, by decide, by decide,
    replay_calls_independent_of_target store_target store_target order_demo
      { order_demo with tgt := [(1, 5)] } rfl rfl (by decide)⟩

/-- C7: for a Load whose `chains[group][id]` is `name`, the name `replay()`
hands to `load` (the one checked against and looked up in the registry) is
`name ++ "[" ++ decimal index ++ "]"` when the index is at least 0, index 0
included, and `name` itself when the index is negative; when that name is not
in the registry the run stops on the assertion for exactly that name. -/
theorem load_registry_name (tg : Target σ T) (s : Sim σ T) (type id : Nat)
    (value : biguint_t) (idx : Int) (name : String)
    (h : resolve s.eng.chains type id = some name) :
    (0 ≤ idx → exec_cmd tg s (.load_t type id value idx) =
        load tg s (name ++ "[" ++ decimal idx.toNat ++ "]") value) ∧
    (idx = 0 → exec_cmd tg s (.load_t type id value idx) = load tg s (name ++ "[0]") value) ∧
    (idx < 0 → exec_cmd tg s (.load_t type id value idx) = load tg s name value) ∧
    (0 ≤ idx →
      s.eng.replay_data.signal_map.lookup (name ++ "[" ++ decimal idx.toNat ++ "]") = none →
      exec_cmd tg s (.load_t type id value idx) =
        Run.abort (Fault.assert_failed (name ++ "[" ++ decimal idx.toNat ++ "]")) s) ∧
    (idx < 0 → s.eng.replay_data.signal_map.lookup name = none →
      exec_cmd tg s (.load_t type id value idx) =
        Run.abort (Fault.assert_failed name) s) := by
  have base : exec_cmd tg s (.load_t type id value idx) =
      load tg s (load_name name idx) value := by
    rw [exec_load_eq, chain_at_eq, h]
    rfl
  refine ⟨?_, ?_, ?_, ?_, ?_⟩
  · intro hi
    rw [base, load_name, if_pos hi]
  · intro hi
    subst hi
    have e0 : load_name name 0 = name ++ "[0]" := by
      have d0 : decimal (0 : Int).toNat = "0" := by decide
      rw [load_name, if_pos (le_refl _), d0, String.append_assoc, String.append_assoc]
      rfl
    rw [base, e0]
  · intro hi
    rw [base, load_name, if_neg (by omega)]
  · intro hi hl
    rw [base, load_name, if_pos hi, load_eq, hl]
  · intro hi hl
    rw [base, load_name, if_neg (by omega), load_eq, hl]

/-- C7, evaluated: a Load of index 12 on chain entry `"a"` looks up
`"a[12]"`, which the registry does not hold. -/
theorem load_registry_name_witness :
    resolve verdict_demo.eng.chains 0 0 = some "a" ∧
    exec_cmd store_target verdict_demo (.load_t 0 0 9 12) =
      Run.abort (Fault.assert_failed "a[12]") verdict_demo :=
  ⟨rfl, (load_registry_name store_target verdict_demo 0 0 9 12 "a" rfl).2.2.2.1
    (by decide) rfl⟩

/-- C9: when every signal lookup resolves, `replay()` completes with the
result of the ordered run (`reset(5)`, then for each Snapshot in list order
`reset(5)` and the loop body once on each of its commands in stored order),
its calls are those of `reset(5)` followed, Snapshot by Snapshot in list
order, by those of `reset(5)` and of each command in stored order, whatever
the cycle labels, and `done()` is true afterwards. -/
theorem replay_order (tg : Target σ T) (s : Sim σ T) (h : all_resolve s.eng = true) :
    ∃ s' sig, replay tg s = Run.ok s' ∧ replay_in_order tg s = Run.ok s' ∧
      handle_of s.eng.replay_data "reset" = some sig ∧
      s'.calls = s.calls ++
        ([Call.put_value sig 1 PUT_VALUE_TYPE.PUT_POKE, Call.take_steps 5] ++
          (s.eng.samples.map fun sample =>
            [Call.put_value sig 1 PUT_VALUE_TYPE.PUT_POKE, Call.take_steps 5] ++
              (sample.cmds.map (cmd_calls s.eng)).flatten).flatten) ∧
      done s' = true := by
  obtain ⟨s', h1, hc, _, hd, _⟩ := replay_of_all_resolve tg s h
  obtain ⟨hr, _⟩ := (all_resolve_iff s.eng).mp h
  obtain ⟨sig, hsig⟩ := Option.isSome_iff_exists.mp hr
  refine ⟨s', sig, h1, by rw [← replay_eq_in_order]; exact h1, hsig, ?_, hd⟩
  rw [hc, reset_calls_of_handle hsig]
  simp only [samples_calls, cmds_calls, reset_calls_of_handle hsig]

/-- C9, evaluated: two Snapshots with the same label 3 are both replayed, in
list order, with three `reset(5)` in all. -/
theorem replay_order_witness :
    all_resolve order_demo.eng = true ∧
    (Run.final (replay store_target order_demo)).calls =
      [Call.put_value 0 1 PUT_VALUE_TYPE.PUT_POKE, Call.take_steps 5,
       Call.put_value 0 1 PUT_VALUE_TYPE.PUT_POKE, Call.take_steps 5,
       Call.take_steps 2, Call.get_value 1, Call.put_value 1 5 PUT_VALUE_TYPE.PUT_POKE,
       Call.put_value 0 1 PUT_VALUE_TYPE.PUT_POKE, Call.take_steps 5,
       Call.put_value 1 4 PUT_VALUE_TYPE.PUT_LOAD, Call.take_steps 1] ∧
    ∃ s' sig, replay store_target order_demo = Run.ok s' ∧
      replay_in_order store_target order_demo = Run.ok s' ∧
      handle_of order_demo.eng.replay_data "reset" = some sig ∧
      s'.calls = order_demo.calls ++
        ([Call.put_value sig 1 PUT_VALUE_TYPE.PUT_POKE, Call.take_steps 5] ++
          (order_demo.eng.samples.map fun sample =>
            [Call.put_value sig 1 PUT_VALUE_TYPE.PUT_POKE, Call.take_steps 5] ++
              (sample.cmds.map (cmd_calls order_demo.eng)).flatten).flatten) ∧
      done s' = true :=
  ⟨by decide, by decide, replay_order store_target order_demo (by decide)⟩

/-- C10: when `"reset"` is registered with handle `sig`, `reset(n)` completes
having made exactly two calls, in this order: `put_value(sig, 1, PUT_POKE)`
and `take_steps(n)`; the deposited value is 1, never 0, and every engine
member, the cycle counter and the verdict among them, is as before. -/
theorem reset_two_calls (tg : Target σ T) (s : Sim σ T) (n : Nat) (sig : T)
    (h : handle_of s.eng.replay_data "reset" = some sig) :
    ∃ s', reset tg s n = Run.ok s' ∧
      s'.calls = s.calls ++ [Call.put_value sig 1 PUT_VALUE_TYPE.PUT_POKE, Call.take_steps n] ∧
      s'.tgt = tg.take_steps (tg.put_value s.tgt sig 1 PUT_VALUE_TYPE.PUT_POKE) n ∧
      (∀ sig0 m, Call.put_value sig0 0 m ∉ s'.calls.drop s.calls.length) ∧
      s'.eng = s.eng ∧ s'.eng.cycles = s.eng.cycles ∧ s'.eng.pass = s.eng.pass ∧
      s'.expects = s.expects := by
  refine ⟨_, reset_of_handle tg s n sig h, ?_, rfl, ?_, rfl, rfl, rfl, rfl⟩
  · simp
  · intro sig0 m
    simp

/-- C10, evaluated: `reset(5)` on the demonstration engine. -/
theorem reset_two_calls_witness :
    handle_of verdict_demo.eng.replay_data "reset" = some 0 ∧
    ∃ s', reset store_target verdict_demo 5 = Run.ok s' ∧
      s'.calls = verdict_demo.calls ++
        [Call.put_value 0 1 PUT_VALUE_TYPE.PUT_POKE, Call.take_steps 5] ∧
      s'.tgt = store_target.take_steps
        (store_target.put_value verdict_demo.tgt 0 1 PUT_VALUE_TYPE.PUT_POKE) 5 ∧
      (∀ sig0 m, Call.put_value sig0 0 m ∉ s'.calls.drop verdict_demo.calls.length) ∧
      s'.eng = verdict_demo.eng ∧ s'.eng.cycles = verdict_demo.eng.cycles ∧
      s'.eng.pass = verdict_demo.eng.pass ∧ s'.expects = verdict_demo.expects :=
  ⟨rfl, reset_two_calls store_target verdict_demo 5 0 rfl⟩

end Claims


section ParserFacts

variable {T : Type}

theorem update_at_length {α : Type} (f : α → α) :
    ∀ (i : Nat) (xs : List α), (update_at f i xs).length = xs.length
  | _, [] => by simp [update_at]
  | 0, _ :: _ => by simp [update_at]
  | i + 1, x :: xs => by simp [update_at, update_at_length f i xs]

theorem update_at_getElem?_same {α : Type} (f : α → α) :
    ∀ (i : Nat) (xs : List α), (update_at f i xs)[i]? = xs[i]?.map f
  | _, [] => by simp [update_at]
  | 0, _ :: _ => by simp [update_at]
  | i + 1, x :: xs => by simp [update_at, update_at_getElem?_same f i xs]

theorem update_at_getElem?_other {α : Type} (f : α → α) :
    ∀ (i j : Nat) (xs : List α), j ≠ i → (update_at f i xs)[j]? = xs[j]?
  | _, _, [], _ => by simp [update_at]
  | 0, 0, _ :: _, h => absurd rfl h
  | 0, j + 1, _ :: _, _ => by simp [update_at]
  | i + 1, 0, _ :: _, _ => by simp [update_at]
  | i + 1, j + 1, x :: xs, h => by
    simp only [update_at, List.getElem?_cons_succ]
    exact update_at_getElem?_other f i j xs (by omega)

theorem update_at_last {α : Type} (f : α → α) :
    ∀ (front : List α) (x : α), update_at f front.length (front ++ [x]) = front ++ [f x]
  | [], _ => by simp [update_at]
  | y :: front, x => by simp [update_at, update_at_last f front x]

/-- The growth loop ends with the table padded by empty groups up to
position `t`. -/
theorem grow_chains_eq :
    ∀ (fuel t : Nat) (chains : List (List String)), t + 1 - chains.length ≤ fuel →
      grow_chains fuel t chains = chains ++ List.replicate (t + 1 - chains.length) []
  | 0, t, chains, h => by
    have h0 : t + 1 - chains.length = 0 := by omega
    simp [grow_chains, h0]
  | fuel + 1, t, chains, h => by
    by_cases hc : chains.length ≤ t
    · have hlen : (chains ++ [([] : List String)]).length = chains.length + 1 := by simp
      have hn : t + 1 - chains.length = (t + 1 - (chains.length + 1)) + 1 := by omega
      rw [grow_chains, if_pos hc, grow_chains_eq fuel t _ (by rw [hlen]; omega), hlen, hn,
        List.replicate_succ, List.append_assoc]
      rfl
    · have h0 : t + 1 - chains.length = 0 := by omega
      simp [grow_chains, hc, h0]

end ParserFacts


section ParserClaims

variable {T : Type}

theorem grown_getElem? (chains : List (List String)) (t j : Nat) :
    (chains ++ List.replicate (t + 1 - chains.length) ([] : List String))[j]? =
      if j < chains.length then chains[j]? else if j ≤ t then some [] else none := by
  by_cases hj : j < chains.length
  · rw [if_pos hj, List.getElem?_append_left hj]
  · rw [if_neg hj, List.getElem?_append_right (by omega), List.getElem?_replicate]
    by_cases ht : j ≤ t
    · rw [if_pos ht, if_pos (by omega)]
    · rw [if_neg ht, if_neg (by omega)]

/-- C8: a SIGNALS record (group `g`, name `name`) is processed without
failure; afterwards the chain table has `max |C| (g + 1)` groups, group `g` is
the old group `g` (the empty list if there was none) with `name` appended at
the end, every other group that existed is unchanged, every group created
between `|C|` and `g - 1` is empty, and the Snapshot list, the step counter,
the current-Snapshot pointer and the other engine members are unchanged. -/
theorem signals_record_growth (st : load_state T) (g : Nat) (name : String) :
    ∃ st', load_record st (.SIGNALS g name) = .ok st' ∧
      st'.eng.chains.length = max st.eng.chains.length (g + 1) ∧
      st'.eng.chains[g]? = some ((st.eng.chains[g]?).getD [] ++ [name]) ∧
      (∀ j, j < st.eng.chains.length → j ≠ g → st'.eng.chains[j]? = st.eng.chains[j]?) ∧
      (∀ j, st.eng.chains.length ≤ j → j < g → st'.eng.chains[j]? = some []) ∧
      st'.eng.samples = st.eng.samples ∧ st'.steps = st.steps ∧ st'.sample = st.sample ∧
      st'.eng.replay_data = st.eng.replay_data ∧ st'.eng.cycles = st.eng.cycles ∧
      st'.eng.pass = st.eng.pass := by
  refine ⟨_, rfl, ?_, ?_, ?_, ?_, rfl, rfl, rfl, rfl, rfl, rfl⟩
  · show (update_at _ g (grow_chains (g + 1) g st.eng.chains)).length = _
    rw [update_at_length, grow_chains_eq _ _ _ (by omega), List.length_append,
      List.length_replicate]
    omega
  · show (update_at _ g (grow_chains (g + 1) g st.eng.chains))[g]? = _
    rw [update_at_getElem?_same, grow_chains_eq _ _ _ (by omega), grown_getElem?]
    by_cases hg : g < st.eng.chains.length
    · rw [if_pos hg, List.getElem?_eq_getElem hg]
      rfl
    · rw [if_neg hg, if_pos (le_refl g), List.getElem?_eq_none (by omega)]
      rfl
  · intro j hj hne
    show (update_at _ g (grow_chains (g + 1) g st.eng.chains))[j]? = _
    rw [update_at_getElem?_other _ _ _ _ hne, grow_chains_eq _ _ _ (by omega),
      grown_getElem?, if_pos hj]
  · intro j hj hlt
    show (update_at _ g (grow_chains (g + 1) g st.eng.chains))[j]? = _
    rw [update_at_getElem?_other _ _ _ _ (by omega), grow_chains_eq _ _ _ (by omega),
      grown_getElem?, if_neg (by omega), if_pos (by omega)]

/-- The link between the locals of `load_samples`: a `NULL` pointer goes with
a zero step counter, and a set pointer points to the last Snapshot. -/
theorem add_cmd_of_last (st : load_state T) (cmd : sample_inst_t) (front : List sample_t)
    (cur : sample_t) (hs : st.eng.samples = front ++ [cur])
    (hp : st.sample = some front.length) :
    add_cmd st cmd = .ok { st with eng := { st.eng with
      samples := front ++ [{ cur with cmds := cur.cmds ++ [cmd] }] } } := by
  simp only [add_cmd, hp, hs]
  rw [update_at_last]

end ParserClaims


section ExpectRecords

variable {T : Type}

theorem add_cmd_ok_inv {st st' : load_state T} {cmd : sample_inst_t}
    (h : add_cmd st cmd = .ok st') :
    st'.steps = st.steps ∧ st'.sample = st.sample ∧
      st'.eng.samples.length = st.eng.samples.length ∧ st.sample ≠ none := by
  unfold add_cmd at h
  cases hp : st.sample with
  | none => simp [hp] at h
  | some p =>
    simp only [hp, Except.ok.injEq] at h
    subst h
    exact ⟨rfl, rfl, by simp [update_at_length], by simp⟩

theorem pointer_ok_of_add_cmd {st st' : load_state T} {cmd : sample_inst_t}
    (h : add_cmd st cmd = .ok st') (hp : pointer_ok st) : pointer_ok st' := by
  obtain ⟨h1, h2, h3, _⟩ := add_cmd_ok_inv h
  unfold pointer_ok at hp ⊢
  rw [h2, h1, h3]
  exact hp

/-- One record keeps the pointer discipline and keeps the step counter equal
to the running sum modulo `2 ^ 64`. -/
theorem load_record_inv {st st' : load_state T} {r : record} {a : Nat}
    (h : load_record st r = .ok st') (hp : pointer_ok st) (hs : st.steps = a % WORD) :
    pointer_ok st' ∧ st'.steps = record_steps a r % WORD := by
  cases r with
  | SIGNALS t signal =>
    simp only [load_record, Except.ok.injEq] at h
    subst h
    exact ⟨hp, hs⟩
  | CYCLE cycles =>
    simp only [load_record, Except.ok.injEq] at h
    subst h
    exact ⟨by simp [pointer_ok], by simp [record_steps]⟩
  | LOAD t id value idx =>
    exact ⟨pointer_ok_of_add_cmd h hp, by rw [(add_cmd_ok_inv h).1, hs]; rfl⟩
  | FORCE t id value =>
    exact ⟨pointer_ok_of_add_cmd h hp, by rw [(add_cmd_ok_inv h).1, hs]; rfl⟩
  | POKE t id value =>
    exact ⟨pointer_ok_of_add_cmd h hp, by rw [(add_cmd_ok_inv h).1, hs]; rfl⟩
  | STEP n =>
    simp only [load_record] at h
    cases ha : add_cmd st (.step_t n) with
    | error f => simp [ha] at h
    | ok st1 =>
      simp only [ha, Except.ok.injEq] at h
      subst h
      obtain ⟨h1, h2, h3, h4⟩ := add_cmd_ok_inv ha
      refine ⟨?_, ?_⟩
      · have hp1 := pointer_ok_of_add_cmd ha hp
        unfold pointer_ok at hp1 ⊢
        cases hq : st1.sample with
        | none => exact absurd (h2 ▸ hq) h4
        | some p =>
          simp only [hq] at hp1 ⊢
          exact hp1
      · show (st1.steps + n) % WORD = (a + n) % WORD
        rw [h1, hs, Nat.add_mod, Nat.mod_mod, ← Nat.add_mod]
  | EXPECT t id value =>
    simp only [load_record] at h
    by_cases hgt : st.steps > 1
    · rw [if_pos hgt] at h
      exact ⟨pointer_ok_of_add_cmd h hp, by rw [(add_cmd_ok_inv h).1, hs]; rfl⟩
    · rw [if_neg hgt] at h
      simp only [Except.ok.injEq] at h
      subst h
      exact ⟨hp, hs⟩
  | other type =>
    simp only [load_record, Except.ok.injEq] at h
    subst h
    exact ⟨hp, hs⟩

theorem load_lines_inv :
    ∀ (lines : List record) {st st' : load_state T} {a : Nat},
      load_lines lines st = .ok st' → pointer_ok st → st.steps = a % WORD →
      pointer_ok st' ∧ st'.steps = lines.foldl record_steps a % WORD
  | [], st, st', a, h, hp, hs => by
    simp only [load_lines, Except.ok.injEq] at h
    subst h
    exact ⟨hp, hs⟩
  | r :: rest, st, st', a, h, hp, hs => by
    simp only [load_lines] at h
    cases hr : load_record st r with
    | error f => simp [hr] at h
    | ok st1 =>
      simp only [hr] at h
      obtain ⟨hp1, hs1⟩ := load_record_inv hr hp hs
      exact load_lines_inv rest h hp1 hs1

theorem pointer_ok_last {st : load_state T} (hp : pointer_ok st) (h : 0 < st.steps) :
    ∃ front cur, st.eng.samples = front ++ [cur] ∧ st.sample = some front.length := by
  unfold pointer_ok at hp
  cases hq : st.sample with
  | none =>
    simp only [hq] at hp
    omega
  | some p =>
    simp only [hq] at hp
    have hne : st.eng.samples ≠ [] := by
      intro h0
      rw [h0] at hp
      simp at hp
    refine ⟨st.eng.samples.dropLast, st.eng.samples.getLast hne,
      (List.dropLast_append_getLast hne).symm, ?_⟩
    rw [List.length_dropLast]
    congr 1
    omega

/-- C4 (amended): after any prefix of a log that `load_samples` has read
without failure, the step counter is the sum of the STEP counts since the most
recent CYCLE record modulo `2 ^ 64`; an EXPECT record met there appends its
Expect command at the end of the last Snapshot when that sum modulo `2 ^ 64`
is greater than 1 and otherwise changes nothing, in particular when the sum is
0 or 1; and a CYCLE record resets the sum and the counter to 0. -/
theorem expect_record_rule (e : replay_t T) (pre : List record) (st : load_state T)
    (h : load_lines pre (load_init e) = .ok st) (t id : Nat) (value : biguint_t) :
    st.steps = steps_since_cycle pre % WORD ∧
    (1 < steps_since_cycle pre % WORD →
      ∃ front cur, st.eng.samples = front ++ [cur] ∧
        load_record st (.EXPECT t id value) = .ok { st with eng := { st.eng with
          samples := front ++ [{ cur with cmds := cur.cmds ++ [.expect_t t id value] }] } }) ∧
    (steps_since_cycle pre % WORD ≤ 1 → load_record st (.EXPECT t id value) = .ok st) ∧
    (steps_since_cycle pre ≤ 1 → load_record st (.EXPECT t id value) = .ok st) ∧
    (∀ c, steps_since_cycle (pre ++ [.CYCLE c]) = 0 ∧
      ∃ st', load_record st (.CYCLE c) = .ok st' ∧ st'.steps = 0) := by
  obtain ⟨hp, hs⟩ := load_lines_inv pre (a := 0) h (by simp [pointer_ok, load_init]) rfl
  have hs' : st.steps = steps_since_cycle pre % WORD := hs
  have hdrop : steps_since_cycle pre % WORD ≤ 1 → load_record st (.EXPECT t id value) = .ok st := by
    intro hle
    have : ¬ st.steps > 1 := by omega
    simp [load_record, this]
  refine ⟨hs', ?_, hdrop, ?_, ?_⟩
  · intro hgt
    have hgt' : st.steps > 1 := by omega
    obtain ⟨front, cur, hf, hq⟩ := pointer_ok_last hp (by omega)
    refine ⟨front, cur, hf, ?_⟩
    simp only [load_record, if_pos hgt']
    exact add_cmd_of_last st _ front cur hf hq
  · intro hle
    exact hdrop (le_trans (Nat.mod_le _ _) hle)
  · intro c
    exact ⟨by simp [steps_since_cycle, record_steps], _, rfl, rfl⟩

/-- C4, evaluated: after CYCLE 7, STEP 2 the counter is 2 and an EXPECT
record appends its command to the Snapshot. -/
theorem expect_record_rule_witness :
    load_lines [.CYCLE 7, .STEP 2] (load_init (replay_t.fresh Nat)) = .ok stepped_state ∧
    stepped_state.steps = steps_since_cycle [.CYCLE 7, .STEP 2] % WORD ∧
    ∃ front cur, stepped_state.eng.samples = front ++ [cur] ∧
      load_record stepped_state (.EXPECT 0 0 9) = .ok { stepped_state with
        eng := { stepped_state.eng with
          samples := front ++ [{ cur with cmds := cur.cmds ++ [.expect_t 0 0 9] }] } } :=
  ⟨rfl, (expect_record_rule (replay_t.fresh Nat) [.CYCLE 7, .STEP 2] stepped_state rfl
      0 0 9).1,
    (expect_record_rule (replay_t.fresh Nat) [.CYCLE 7, .STEP 2] stepped_state rfl
      0 0 9).2.1 (by decide)⟩

/-- C4 as stated fails where the step counter wraps: after CYCLE,
STEP `2 ^ 64 - 1`, STEP 1 the sum of the STEP counts is `2 ^ 64`, greater than
1, yet the counter is 0 and an EXPECT record met there is dropped: it is
processed without failure and leaves the Snapshot with its two Step commands. -/
theorem expect_dropped_after_wrap :
    1 < steps_since_cycle wrap_log ∧
    load_lines wrap_log (load_init (replay_t.fresh Nat)) = .ok wrap_state ∧
    wrap_state.steps = 0 ∧
    wrap_state.eng.samples = [⟨0, [.step_t (2 ^ 64 - 1), .step_t 1]⟩] ∧
    load_record wrap_state (.EXPECT 0 0 0) = .ok wrap_state ∧
    load_samples (replay_t.fresh Nat) (wrap_log ++ [.EXPECT 0 0 0]) = .ok wrap_state.eng :=
  ⟨by decide, rfl, rfl, rfl, rfl, rfl⟩

end ExpectRecords


section Aborts

variable {σ T : Type}

theorem mem_of_lookup_eq_some {α β : Type} [BEq α] [LawfulBEq α] :
    ∀ (l : List (α × β)) (k : α) (v : β), l.lookup k = some v → (k, v) ∈ l
  | [], _, _, h => by simp at h
  | (k', v') :: l, k, v, h => by
    rw [List.lookup_cons] at h
    by_cases hk : k == k'
    · simp only [hk] at h
      have hkk : k = k' := by simpa using hk
      have hvv : v' = v := by simpa using h
      subst hkk hvv
      exact List.mem_cons_self _ _
    · simp only [hk] at h
      exact List.mem_cons_of_mem _ (mem_of_lookup_eq_some l k v h)

theorem handle_of_isSome_of_valid {rd : replay_data_t T} (hv : handles_valid rd = true)
    {name : String} {id : Nat} (hl : rd.signal_map.lookup name = some id) :
    (handle_of rd name).isSome = true := by
  have hm := mem_of_lookup_eq_some _ _ _ hl
  have hlt : id < rd.signals.length := by
    have := (List.all_eq_true.mp hv) _ hm
    simpa using this
  simp [handle_of, hl, List.getElem?_eq_getElem hlt]

theorem unregistered_congr {e e' : replay_t T} (h : same_tables e e') (cmd : sample_inst_t) :
    unregistered e' cmd = unregistered e cmd := by
  unfold unregistered
  rw [h.2.1, h.2.2.1]

theorem chain_covers_congr {e e' : replay_t T} (h : same_tables e e') (cmd : sample_inst_t) :
    chain_covers e' cmd = chain_covers e cmd := by
  unfold chain_covers
  rw [h.2.1]

/-- A registered command of a covered chain table resolves. -/
theorem cmd_resolves_of_registered {e : replay_t T} {cmd : sample_inst_t}
    (hv : handles_valid e.replay_data = true) (hc : chain_covers e cmd = true)
    (hu : unregistered e cmd = false) : cmd_resolves e cmd = true := by
  unfold cmd_resolves
  unfold chain_covers at hc
  unfold unregistered at hu
  cases hl : looks_up cmd with
  | false => simp
  | true =>
    simp only [hl, Bool.not_true, Bool.false_or] at hc ⊢
    obtain ⟨name, hname⟩ := Option.isSome_iff_exists.mp hc
    simp only [hname] at hu ⊢
    cases hk : e.replay_data.signal_map.lookup name with
    | none => simp [hk] at hu
    | some id => exact handle_of_isSome_of_valid hv hk

/-- An unregistered command stops the run on the assertion, in the state it
was reached in. -/
theorem exec_cmd_of_unregistered (tg : Target σ T) (s : Sim σ T) (cmd : sample_inst_t)
    (name : String) (hn : cmd_signal s.eng.chains cmd = some name)
    (hl : s.eng.replay_data.signal_map.lookup name = none) :
    exec_cmd tg s cmd = Run.abort (Fault.assert_failed name) s := by
  cases cmd with
  | step_t n => simp [cmd_signal] at hn
  | force_t type id value => simp [cmd_signal] at hn
  | load_t type id value idx =>
    simp only [cmd_signal, Option.map_eq_some'] at hn
    obtain ⟨nm, hr, rfl⟩ := hn
    rw [exec_load_eq, chain_at_eq, hr]
    simp only [Run.bind_ok]
    rw [load_eq, hl]
  | poke_t type id value =>
    simp only [cmd_signal] at hn
    simp only [exec_cmd, chain_at_eq, hn, Run.bind_ok]
    rw [poke_eq, hl]
  | expect_t type id value =>
    simp only [cmd_signal] at hn
    simp only [exec_cmd, chain_at_eq, hn, Run.bind_ok]
    rw [expect_eq, hl]
    rfl

theorem unregistered_eq_true {e : replay_t T} {cmd : sample_inst_t}
    (h : unregistered e cmd = true) :
    ∃ name, cmd_signal e.chains cmd = some name ∧
      e.replay_data.signal_map.lookup name = none := by
  unfold unregistered at h
  cases hn : cmd_signal e.chains cmd with
  | none => simp [hn] at h
  | some name =>
    simp only [hn] at h
    exact ⟨name, rfl, by simpa using h⟩

/-- The commands of a Snapshot either all run, or stop at the first
unregistered one in the state the commands before it produced. -/
theorem run_cmds_cases (tg : Target σ T) :
    ∀ (cmds : List sample_inst_t) (s : Sim σ T),
      handles_valid s.eng.replay_data = true →
      (∀ c ∈ cmds, chain_covers s.eng c = true) →
      ((∀ c ∈ cmds, unregistered s.eng c = false) ∧ ∃ s', run_cmds tg cmds s = Run.ok s') ∨
      ∃ cs1 c cs2 name s3, cmds = cs1 ++ c :: cs2 ∧
        (∀ x ∈ cs1, unregistered s.eng x = false) ∧
        cmd_signal s.eng.chains c = some name ∧
        s.eng.replay_data.signal_map.lookup name = none ∧
        run_cmds tg cs1 s = Run.ok s3 ∧
        run_cmds tg cmds s = Run.abort (Fault.assert_failed name) s3
  | [], s, _, _ => Or.inl ⟨by simp, s, rfl⟩
  | cmd :: rest, s, hv, hc => by
    cases hu : unregistered s.eng cmd with
    | true =>
      obtain ⟨name, hn, hl⟩ := unregistered_eq_true hu
      refine Or.inr ⟨[], cmd, rest, name, s, rfl, by simp, hn, hl, rfl, ?_⟩
      simp [run_cmds, exec_cmd_of_unregistered tg s cmd name hn hl]
    | false =>
      have hres := cmd_resolves_of_registered hv (hc cmd (List.mem_cons_self _ _)) hu
      obtain ⟨s1, h1⟩ := exec_cmd_of_resolves tg s cmd hres
      have ht := (exec_cmd_ok_inv h1).1
      have hv1 : handles_valid s1.eng.replay_data = true := by rw [ht.2.2.1]; exact hv
      have hc1 : ∀ c ∈ rest, chain_covers s1.eng c = true := fun c hm => by
        rw [chain_covers_congr ht]
        exact hc c (List.mem_cons_of_mem _ hm)
      rcases run_cmds_cases tg rest s1 hv1 hc1 with ⟨hall, s', h'⟩ |
          ⟨cs1, c, cs2, name, s3, hsplit, hpre, hn, hl, hrun1, habort⟩
      · refine Or.inl ⟨?_, s', by simp [run_cmds, h1, h']⟩
        intro c hm
        rcases List.mem_cons.mp hm with rfl | hm'
        · exact hu
        · rw [← unregistered_congr ht]
          exact hall c hm'
      · refine Or.inr ⟨cmd :: cs1, c, cs2, name, s3, by simp [hsplit], ?_, ?_, ?_, ?_, ?_⟩
        · intro x hm
          rcases List.mem_cons.mp hm with rfl | hm'
          · exact hu
          · rw [← unregistered_congr ht]
            exact hpre x hm'
        · rw [← ht.2.1]
          exact hn
        · rw [← ht.2.2.1]
          exact hl
        · simp [run_cmds, h1, hrun1]
        · simp [run_cmds, h1, habort]

end Aborts


section AbortClaims

variable {σ T : Type}

/-- The Snapshots either all run, or stop at the first unregistered command
in the state the Snapshots and commands before it produced. -/
theorem run_samples_cases (tg : Target σ T) :
    ∀ (samples : List sample_t) (s : Sim σ T),
      (s.eng.replay_data.signal_map.lookup "reset").isSome = true →
      handles_valid s.eng.replay_data = true →
      (∀ sample ∈ samples, ∀ c ∈ sample.cmds, chain_covers s.eng c = true) →
      ((∀ sample ∈ samples, ∀ c ∈ sample.cmds, unregistered s.eng c = false) ∧
        ∃ s', run_samples tg samples s = Run.ok s') ∨
      ∃ pre sample post cs1 c cs2 name s2 s3, samples = pre ++ sample :: post ∧
        sample.cmds = cs1 ++ c :: cs2 ∧
        (∀ x ∈ pre, ∀ y ∈ x.cmds, unregistered s.eng y = false) ∧
        (∀ y ∈ cs1, unregistered s.eng y = false) ∧
        cmd_signal s.eng.chains c = some name ∧
        s.eng.replay_data.signal_map.lookup name = none ∧
        run_samples tg pre s = Run.ok s2 ∧
        (reset tg s2 5).bind (run_cmds tg cs1) = Run.ok s3 ∧
        run_samples tg samples s = Run.abort (Fault.assert_failed name) s3
  | [], s, _, _, _ => Or.inl ⟨by simp, s, rfl⟩
  | sample :: rest, s, hr, hv, hc => by
    obtain ⟨id, hid⟩ := Option.isSome_iff_exists.mp hr
    obtain ⟨sig, hsig⟩ := Option.isSome_iff_exists.mp (handle_of_isSome_of_valid hv hid)
    have hreset := reset_of_handle tg s 5 sig hsig
    rcases run_cmds_cases tg sample.cmds
        (take_steps tg (put_value tg s sig 1 PUT_VALUE_TYPE.PUT_POKE) 5) hv
        (hc sample (List.mem_cons_self _ _)) with
      ⟨hall, s2, h2⟩ | ⟨cs1, c, cs2, name, s3, hsplit, hpre, hn, hl, hrun1, habort⟩
    · have ht : same_tables s.eng s2.eng := (run_cmds_ok_inv sample.cmds h2).1
      have hr2 : (s2.eng.replay_data.signal_map.lookup "reset").isSome = true := by
        rw [ht.2.2.1]
        exact hr
      have hv2 : handles_valid s2.eng.replay_data = true := by
        rw [ht.2.2.1]
        exact hv
      have hc2 : ∀ x ∈ rest, ∀ y ∈ x.cmds, chain_covers s2.eng y = true := fun x hx y hy => by
        rw [chain_covers_congr ht]
        exact hc x (List.mem_cons_of_mem _ hx) y hy
      have hfirst : run_samples tg (sample :: rest) s = run_samples tg rest s2 := by
        simp [run_samples, hreset, h2]
      rcases run_samples_cases tg rest s2 hr2 hv2 hc2 with ⟨hall', s', h'⟩ |
          ⟨pre, smp, post, ds1, d, ds2, nm, t2, t3, hsp, hsp', hp1, hp2, hn', hl', hrun, hrs, hab⟩
      · refine Or.inl ⟨?_, s', by rw [hfirst]; exact h'⟩
        intro x hx y hy
        rcases List.mem_cons.mp hx with rfl | hx'
        · exact hall y hy
        · rw [← unregistered_congr ht]
          exact hall' x hx' y hy
      · refine Or.inr ⟨sample :: pre, smp, post, ds1, d, ds2, nm, t2, t3, by simp [hsp], hsp',
          ?_, ?_, ?_, ?_, ?_, hrs, by rw [hfirst]; exact hab⟩
        · intro x hx y hy
          rcases List.mem_cons.mp hx with rfl | hx'
          · exact hall y hy
          · rw [← unregistered_congr ht]
            exact hp1 x hx' y hy
        · intro y hy
          rw [← unregistered_congr ht]
          exact hp2 y hy
        · rw [← ht.2.1]
          exact hn'
        · rw [← ht.2.2.1]
          exact hl'
        · simp only [run_samples, hreset, Run.bind_ok, h2]
          exact hrun
    · refine Or.inr ⟨[], sample, rest, cs1, c, cs2, name, s, s3, rfl, hsplit, by simp, hpre,
        hn, hl, rfl, ?_, ?_⟩
      · simp only [hreset, Run.bind_ok]
        exact hrun1
      · simp [run_samples, hreset, habort]

theorem lookups_in_range_iff (e : replay_t T) :
    lookups_in_range e = true ↔
      (e.replay_data.signal_map.lookup "reset").isSome = true ∧
      handles_valid e.replay_data = true ∧
      ∀ sample ∈ e.samples, ∀ c ∈ sample.cmds, chain_covers e c = true := by
  simp [lookups_in_range, List.all_eq_true, and_assoc]

theorem some_unregistered_iff (e : replay_t T) :
    some_unregistered e = true ↔
      ∃ sample ∈ e.samples, ∃ c ∈ sample.cmds, unregistered e c = true := by
  simp [some_unregistered, List.any_eq_true]

/-- C6: assume `"reset"` is registered, every registered handle is a valid
index into the signal list, and every Load, Poke and Expect has its group and
id inside the chain table.  Then `replay()` stops on a fault iff some Load,
Poke or Expect of some Snapshot resolves to a name that is not in the
registry; when none does it completes; and when it stops, the fault is the
assertion on the name of the first such command, and the state it stops in is
the one produced by `reset(5)`, the Snapshots before, the `reset(5)` of its
Snapshot and the commands before it: nothing was deposited or read for the
command and no later command ran.  No access is out of range. -/
theorem replay_abort_iff (tg : Target σ T) (s : Sim σ T)
    (h : lookups_in_range s.eng = true) :
    ((∃ f s', replay tg s = Run.abort f s') ↔ some_unregistered s.eng = true) ∧
    (some_unregistered s.eng = false → ∃ s', replay tg s = Run.ok s') ∧
    (∀ f s', replay tg s = Run.abort f s' →
      ∃ pre sample post cs1 cmd cs2 name s1 s2,
        s.eng.samples = pre ++ sample :: post ∧ sample.cmds = cs1 ++ cmd :: cs2 ∧
        (∀ x ∈ pre, ∀ y ∈ x.cmds, unregistered s.eng y = false) ∧
        (∀ y ∈ cs1, unregistered s.eng y = false) ∧
        looks_up cmd = true ∧
        cmd_signal s.eng.chains cmd = some name ∧
        s.eng.replay_data.signal_map.lookup name = none ∧
        f = Fault.assert_failed name ∧
        reset tg s 5 = Run.ok s1 ∧ run_samples tg pre s1 = Run.ok s2 ∧
        (reset tg s2 5).bind (run_cmds tg cs1) = Run.ok s') := by
  obtain ⟨hr, hv, hc⟩ := (lookups_in_range_iff s.eng).mp h
  obtain ⟨id, hid⟩ := Option.isSome_iff_exists.mp hr
  obtain ⟨sig, hsig⟩ := Option.isSome_iff_exists.mp (handle_of_isSome_of_valid hv hid)
  have hreset := reset_of_handle tg s 5 sig hsig
  have hrep : ∀ r, run_samples tg s.eng.samples
      (take_steps tg (put_value tg s sig 1 PUT_VALUE_TYPE.PUT_POKE) 5) = r →
      replay tg s = r.bind fun s2 => Run.ok { s2 with eng := { s2.eng with is_exit := true } } := by
    intro r hrun
    rw [replay_eq_in_order, replay_in_order, hreset, ← hrun]
    rfl
  have hlook : ∀ (cmd : sample_inst_t) (name : String),
      cmd_signal s.eng.chains cmd = some name → looks_up cmd = true := by
    intro cmd name hn
    cases cmd <;> simp [cmd_signal, looks_up] at hn ⊢
  rcases run_samples_cases tg s.eng.samples
      (take_steps tg (put_value tg s sig 1 PUT_VALUE_TYPE.PUT_POKE) 5) hr hv hc with
    ⟨hall, s', h'⟩ |
      ⟨pre, smp, post, cs1, c, cs2, name, s2, s3, hsp, hsp', hp1, hp2, hn, hl, hrun, hrs, hab⟩
  · have hok := hrep _ h'
    simp only [Run.bind_ok] at hok
    have hnone : some_unregistered s.eng = false := by
      rw [Bool.eq_false_iff]
      intro hsome
      obtain ⟨x, hx, y, hy, hu⟩ := (some_unregistered_iff s.eng).mp hsome
      have hf : unregistered s.eng y = false := hall x hx y hy
      rw [hu] at hf
      cases hf
    refine ⟨?_, fun _ => ⟨_, hok⟩, ?_⟩
    · rw [hnone, hok]
      simp
    · intro f t hab
      rw [hok] at hab
      cases hab
  · have habort := hrep _ hab
    simp only [Run.bind_abort] at habort
    have hsome : some_unregistered s.eng = true := by
      rw [some_unregistered_iff]
      refine ⟨smp, ?_, c, ?_, ?_⟩
      · rw [hsp]
        simp
      · rw [hsp']
        simp
      · show unregistered s.eng c = true
        have hn0 : cmd_signal s.eng.chains c = some name := hn
        have hl0 : s.eng.replay_data.signal_map.lookup name = none := hl
        simp [unregistered, hn0, hl0]
    refine ⟨?_, ?_, ?_⟩
    · rw [hsome, habort]
      simp
    · intro hnone
      rw [hsome] at hnone
      cases hnone
    · intro f t hft
      rw [habort] at hft
      injection hft with hf hs
      subst hf hs
      exact ⟨pre, smp, post, cs1, c, cs2, name, _, s2, hsp, hsp', hp1, hp2, hlook c name hn,
        hn, hl, rfl, hreset, hrun, hrs⟩

/-- C6, evaluated: the Load of `"a[12]"` in the second Snapshot stops the run
after the first Snapshot, the second `reset(5)` and the Step before it; the
Poke after it and the third Snapshot never run. -/
theorem replay_abort_iff_witness :
    lookups_in_range abort_demo.eng = true ∧
    (Run.final (replay store_target abort_demo)).calls =
      [Call.put_value 0 1 PUT_VALUE_TYPE.PUT_POKE, Call.take_steps 5,
       Call.put_value 0 1 PUT_VALUE_TYPE.PUT_POKE, Call.take_steps 5,
       Call.put_value 1 3 PUT_VALUE_TYPE.PUT_POKE,
       Call.put_value 0 1 PUT_VALUE_TYPE.PUT_POKE, Call.take_steps 5,
       Call.take_steps 2] ∧
    ((∃ f s', replay store_target abort_demo = Run.abort f s') ↔
      some_unregistered abort_demo.eng = true) ∧
    replay store_target abort_demo =
      Run.abort (Fault.assert_failed "a[12]") (Run.final (replay store_target abort_demo)) :=
  ⟨by decide, by decide, (replay_abort_iff store_target abort_demo (by decide)).1, rfl⟩

end AbortClaims


section ParserRuns

variable {T : Type}

theorem add_cmd_of_set (st : load_state T) (cmd : sample_inst_t) (p : Nat)
    (hp : st.sample = some p) :
    ∃ st', add_cmd st cmd = .ok st' ∧ st'.sample = some p ∧ st'.steps = st.steps := by
  simp only [add_cmd, hp]
  exact ⟨_, rfl, rfl, rfl⟩

/-- Once the pointer is set, no record fails, and the pointer stays set. -/
theorem load_record_of_set (st : load_state T) (r : record) (p : Nat)
    (hp : st.sample = some p) :
    ∃ st' q, load_record st r = .ok st' ∧ st'.sample = some q := by
  cases r with
  | SIGNALS t signal => exact ⟨_, p, rfl, hp⟩
  | CYCLE cycles => exact ⟨_, _, rfl, rfl⟩
  | LOAD t id value idx =>
    obtain ⟨st1, h1, h2, _⟩ := add_cmd_of_set st (.load_t t id value idx) p hp
    exact ⟨st1, p, h1, h2⟩
  | FORCE t id value =>
    obtain ⟨st1, h1, h2, _⟩ := add_cmd_of_set st (.force_t t id value) p hp
    exact ⟨st1, p, h1, h2⟩
  | POKE t id value =>
    obtain ⟨st1, h1, h2, _⟩ := add_cmd_of_set st (.poke_t t id value) p hp
    exact ⟨st1, p, h1, h2⟩
  | STEP n =>
    obtain ⟨st1, h1, h2, _⟩ := add_cmd_of_set st (.step_t n) p hp
    simp only [load_record, h1]
    exact ⟨_, p, rfl, h2⟩
  | EXPECT t id value =>
    by_cases hs : st.steps > 1
    · obtain ⟨st1, h1, h2, _⟩ := add_cmd_of_set st (.expect_t t id value) p hp
      simp only [load_record, if_pos hs]
      exact ⟨st1, p, h1, h2⟩
    · simp only [load_record, if_neg hs]
      exact ⟨st, p, rfl, hp⟩
  | other type => exact ⟨_, p, rfl, hp⟩

theorem load_lines_of_set :
    ∀ (lines : List record) (st : load_state T) (p : Nat), st.sample = some p →
      ∃ st', load_lines lines st = .ok st'
  | [], st, _, _ => ⟨st, rfl⟩
  | r :: rest, st, p, hp => by
    obtain ⟨st1, q, h1, hq⟩ := load_record_of_set st r p hp
    obtain ⟨st2, h2⟩ := load_lines_of_set rest st1 q hq
    exact ⟨st2, by simp [load_lines, h1, h2]⟩

/-- With a `NULL` pointer and a zero step counter, a SIGNALS, EXPECT or
unrecognized record is processed without failure and leaves the pointer, the
counter and the Snapshot list as they were. -/
theorem load_record_of_null (st : load_state T) (r : record) (hp : st.sample = none)
    (hs : st.steps = 0) (hr : early_command [r] = false) (hc : cycle_labels [r] = []) :
    ∃ st', load_record st r = .ok st' ∧ st'.sample = none ∧ st'.steps = 0 ∧
      st'.eng.samples = st.eng.samples := by
  cases r with
  | SIGNALS t signal => exact ⟨_, rfl, hp, hs, rfl⟩
  | CYCLE cycles => simp [cycle_labels] at hc
  | LOAD t id value idx => simp [early_command] at hr
  | FORCE t id value => simp [early_command] at hr
  | POKE t id value => simp [early_command] at hr
  | STEP n => simp [early_command] at hr
  | EXPECT t id value =>
    have hgt : ¬ st.steps > 1 := by omega
    simp only [load_record, if_neg hgt]
    exact ⟨st, rfl, hp, hs, rfl⟩
  | other type => exact ⟨_, rfl, hp, hs, rfl⟩

/-- With a `NULL` pointer and a zero step counter, the loop fails exactly on
a log with an early command, and then on the missing Snapshot. -/
theorem load_lines_of_null :
    ∀ (lines : List record) (st : load_state T), st.sample = none → st.steps = 0 →
      (early_command lines = true → load_lines lines st = .error Fault.null_sample) ∧
      (early_command lines = false → ∃ st', load_lines lines st = .ok st')
  | [], st, _, _ => ⟨by simp [early_command], fun _ => ⟨st, rfl⟩⟩
  | r :: rest, st, hp, hs => by
    by_cases hc : cycle_labels [r] = []
    · by_cases hr : early_command [r] = false
      · obtain ⟨st1, h1, hp1, hs1, _⟩ := load_record_of_null st r hp hs hr hc
        have ih := load_lines_of_null rest st1 hp1 hs1
        have he : early_command (r :: rest) = early_command rest := by
          cases r <;> simp [early_command, cycle_labels] at hr hc ⊢
        rw [he]
        simpa [load_lines, h1] using ih
      · have he : early_command (r :: rest) = true := by
          cases r <;> simp [early_command] at hr ⊢
        have hf : load_record st r = .error Fault.null_sample := by
          cases r <;> simp [early_command] at hr <;> simp [load_record, add_cmd, hp]
        simp [he, load_lines, hf]
    · have he : early_command (r :: rest) = false := by
        cases r <;> simp [early_command, cycle_labels] at hc ⊢
      obtain ⟨c, rfl⟩ : ∃ c, r = .CYCLE c := by
        cases r <;> simp [cycle_labels] at hc
        exact ⟨_, rfl⟩
      obtain ⟨st1, q, h1, hq⟩ : ∃ st' q, load_record st (.CYCLE c) = .ok st' ∧
          st'.sample = some q := ⟨_, _, rfl, rfl⟩
      obtain ⟨st2, h2⟩ := load_lines_of_set rest st1 q hq
      simp [he, load_lines, h1, h2]

end ParserRuns


section SnapshotLists

variable {T : Type}

theorem add_cmd_frame {st st' : load_state T} {cmd : sample_inst_t}
    (h : add_cmd st cmd = .ok st') : parse_frame st.eng st'.eng := by
  unfold add_cmd at h
  cases hp : st.sample with
  | none => simp [hp] at h
  | some p =>
    simp only [hp, Except.ok.injEq] at h
    subst h
    exact ⟨rfl, rfl, rfl, rfl, rfl⟩

theorem load_record_frame {st st' : load_state T} {r : record}
    (h : load_record st r = .ok st') : parse_frame st.eng st'.eng := by
  cases r with
  | SIGNALS t signal =>
    simp only [load_record, Except.ok.injEq] at h
    subst h
    exact ⟨rfl, rfl, rfl, rfl, rfl⟩
  | CYCLE cycles =>
    simp only [load_record, Except.ok.injEq] at h
    subst h
    exact ⟨rfl, rfl, rfl, rfl, rfl⟩
  | LOAD t id value idx => exact add_cmd_frame h
  | FORCE t id value => exact add_cmd_frame h
  | POKE t id value => exact add_cmd_frame h
  | STEP n =>
    simp only [load_record] at h
    cases ha : add_cmd st (.step_t n) with
    | error f => simp [ha] at h
    | ok st1 =>
      simp only [ha, Except.ok.injEq] at h
      subst h
      exact (add_cmd_frame ha : parse_frame st.eng st1.eng)
  | EXPECT t id value =>
    simp only [load_record] at h
    by_cases hgt : st.steps > 1
    · rw [if_pos hgt] at h
      exact add_cmd_frame h
    · simp only [if_neg hgt, Except.ok.injEq] at h
      subst h
      exact ⟨rfl, rfl, rfl, rfl, rfl⟩
  | other type =>
    simp only [load_record, Except.ok.injEq] at h
    subst h
    exact ⟨rfl, rfl, rfl, rfl, rfl⟩

theorem load_lines_frame :
    ∀ (lines : List record) {st st' : load_state T},
      load_lines lines st = .ok st' → parse_frame st.eng st'.eng
  | [], st, st', h => by
    simp only [load_lines, Except.ok.injEq] at h
    subst h
    exact ⟨rfl, rfl, rfl, rfl, rfl⟩
  | r :: rest, st, st', h => by
    simp only [load_lines] at h
    cases hr : load_record st r with
    | error f => simp [hr] at h
    | ok st1 =>
      simp only [hr] at h
      obtain ⟨a1, a2, a3, a4, a5⟩ := load_record_frame hr
      obtain ⟨b1, b2, b3, b4, b5⟩ := load_lines_frame rest h
      exact ⟨b1.trans a1, b2.trans a2, b3.trans a3, b4.trans a4, b5.trans a5⟩

/-- With the pointer on the last Snapshot, the loop completes: the records up
to the next CYCLE record extend that Snapshot, the others open new ones. -/
theorem load_lines_open :
    ∀ (lines : List record) (st : load_state T) (front : List sample_t) (cur : sample_t),
      st.eng.samples = front ++ [cur] → st.sample = some front.length →
      ∃ st', load_lines lines st = .ok st' ∧
        st'.eng.samples =
          front ++ [{ cur with cmds := cur.cmds ++ segment_cmds st.steps lines }] ++
            snapshots_of lines
  | [], st, front, cur, hs, _ => ⟨st, rfl, by simp [segment_cmds, snapshots_of, hs]⟩
  | r :: rest, st, front, cur, hs, hp => by
    have hadd : ∀ cmd, ∃ st1, add_cmd st cmd = .ok st1 ∧
        st1.eng.samples = front ++ [{ cur with cmds := cur.cmds ++ [cmd] }] ∧
        st1.sample = some front.length ∧ st1.steps = st.steps := fun cmd =>
      ⟨_, add_cmd_of_last st cmd front cur hs hp, rfl, hp, rfl⟩
    cases r with
    | SIGNALS t signal =>
      obtain ⟨st1, h1, hs1, hp1, hk1⟩ : ∃ st1, load_record st (.SIGNALS t signal) = .ok st1 ∧
          st1.eng.samples = front ++ [cur] ∧ st1.sample = some front.length ∧
          st1.steps = st.steps := ⟨_, rfl, hs, hp, rfl⟩
      obtain ⟨st', h', hs'⟩ := load_lines_open rest st1 front cur hs1 hp1
      refine ⟨st', by simp [load_lines, h1, h'], ?_⟩
      rw [hs', hk1]
      simp [segment_cmds, snapshots_of]
    | CYCLE cycles =>
      obtain ⟨st1, h1, hs1, hp1, hk1⟩ : ∃ st1, load_record st (.CYCLE cycles) = .ok st1 ∧
          st1.eng.samples = (front ++ [cur]) ++ [⟨cycles, []⟩] ∧
          st1.sample = some (front ++ [cur]).length ∧ st1.steps = 0 :=
        ⟨_, rfl, by simp [hs], by simp [hs], rfl⟩
      obtain ⟨st', h', hs'⟩ := load_lines_open rest st1 (front ++ [cur]) ⟨cycles, []⟩ hs1 hp1
      refine ⟨st', by simp [load_lines, h1, h'], ?_⟩
      rw [hs', hk1]
      simp [segment_cmds, snapshots_of]
    | LOAD t id value idx =>
      obtain ⟨st1, h1, hs1, hp1, hk1⟩ := hadd (.load_t t id value idx)
      obtain ⟨st', h', hs'⟩ := load_lines_open rest st1 front _ hs1 hp1
      refine ⟨st', by simpa [load_lines, load_record, h1] using h', ?_⟩
      rw [hs', hk1]
      simp [segment_cmds, snapshots_of]
    | FORCE t id value =>
      obtain ⟨st1, h1, hs1, hp1, hk1⟩ := hadd (.force_t t id value)
      obtain ⟨st', h', hs'⟩ := load_lines_open rest st1 front _ hs1 hp1
      refine ⟨st', by simpa [load_lines, load_record, h1] using h', ?_⟩
      rw [hs', hk1]
      simp [segment_cmds, snapshots_of]
    | POKE t id value =>
      obtain ⟨st1, h1, hs1, hp1, hk1⟩ := hadd (.poke_t t id value)
      obtain ⟨st', h', hs'⟩ := load_lines_open rest st1 front _ hs1 hp1
      refine ⟨st', by simpa [load_lines, load_record, h1] using h', ?_⟩
      rw [hs', hk1]
      simp [segment_cmds, snapshots_of]
    | STEP n =>
      obtain ⟨st1, h1, hs1, hp1, hk1⟩ := hadd (.step_t n)
      obtain ⟨st2, h2, hs2, hp2, hk2⟩ : ∃ st2, load_record st (.STEP n) = .ok st2 ∧
          st2.eng.samples = front ++ [{ cur with cmds := cur.cmds ++ [.step_t n] }] ∧
          st2.sample = some front.length ∧ st2.steps = (st.steps + n) % WORD :=
        ⟨{ st1 with steps := (st1.steps + n) % WORD }, by simp only [load_record, h1],
          hs1, hp1, by simp [hk1]⟩
      obtain ⟨st', h', hs'⟩ := load_lines_open rest st2 front _ hs2 hp2
      refine ⟨st', by simp [load_lines, h2, h'], ?_⟩
      rw [hs', hk2]
      simp [segment_cmds, snapshots_of]
    | EXPECT t id value =>
      by_cases hgt : st.steps > 1
      · obtain ⟨st1, h1, hs1, hp1, hk1⟩ := hadd (.expect_t t id value)
        obtain ⟨st', h', hs'⟩ := load_lines_open rest st1 front _ hs1 hp1
        refine ⟨st', by simpa [load_lines, load_record, hgt, h1] using h', ?_⟩
        rw [hs', hk1]
        simp [segment_cmds, hgt, snapshots_of]
      · obtain ⟨st', h', hs'⟩ := load_lines_open rest st front cur hs hp
        refine ⟨st', by simpa [load_lines, load_record, hgt] using h', ?_⟩
        rw [hs']
        simp [segment_cmds, hgt, snapshots_of]
    | other type =>
      obtain ⟨st', h', hs'⟩ := load_lines_open rest st front cur hs hp
      refine ⟨st', by simpa [load_lines, load_record] using h', ?_⟩
      rw [hs']
      simp [segment_cmds, snapshots_of]

/-- With a `NULL` pointer, a log without early command appends its Snapshots
to the list. -/
theorem load_lines_closed :
    ∀ (lines : List record) (st : load_state T), st.sample = none → st.steps = 0 →
      early_command lines = false →
      ∃ st', load_lines lines st = .ok st' ∧
        st'.eng.samples = st.eng.samples ++ snapshots_of lines
  | [], st, _, _, _ => ⟨st, rfl, by simp [snapshots_of]⟩
  | r :: rest, st, hp, hs, he => by
    by_cases hc : cycle_labels [r] = []
    · have hr : early_command [r] = false := by
        cases r <;> simp [early_command] at he ⊢
      have he' : early_command rest = false := by
        cases r <;> simp [early_command, cycle_labels] at he hc ⊢ <;> exact he
      obtain ⟨st1, h1, hp1, hs1, hsm⟩ := load_record_of_null st r hp hs hr hc
      obtain ⟨st', h', hs'⟩ := load_lines_closed rest st1 hp1 hs1 he'
      refine ⟨st', by simp [load_lines, h1, h'], ?_⟩
      rw [hs', hsm]
      cases r <;> simp [cycle_labels] at hc <;> simp [snapshots_of]
    · obtain ⟨c, rfl⟩ : ∃ c, r = .CYCLE c := by
        cases r <;> simp [cycle_labels] at hc
        exact ⟨_, rfl⟩
      obtain ⟨st1, h1, hs1, hp1, hk1⟩ : ∃ st1, load_record st (.CYCLE c) = .ok st1 ∧
          st1.eng.samples = st.eng.samples ++ [⟨c, []⟩] ∧
          st1.sample = some st.eng.samples.length ∧ st1.steps = 0 := ⟨_, rfl, rfl, rfl, rfl⟩
      obtain ⟨st', h', hs'⟩ := load_lines_open rest st1 st.eng.samples ⟨c, []⟩ hs1 hp1
      refine ⟨st', by simp [load_lines, h1, h'], ?_⟩
      rw [hs', hk1]
      simp [snapshots_of]

theorem segment_cmds_until_cycle (c : Nat) (post : List record) :
    ∀ (pre : List record) (k : Nat),
      segment_cmds k (pre ++ .CYCLE c :: post) = segment_cmds k pre
  | [], k => by simp [segment_cmds]
  | r :: pre, k => by
    cases r <;> simp [segment_cmds, segment_cmds_until_cycle c post pre]

theorem snapshots_of_append_cycle (c : Nat) (post : List record) :
    ∀ pre : List record,
      snapshots_of (pre ++ .CYCLE c :: post) =
        snapshots_of pre ++ ⟨c, segment_cmds 0 post⟩ :: snapshots_of post
  | [] => by simp [snapshots_of]
  | r :: pre => by
    cases r <;>
      simp [snapshots_of, snapshots_of_append_cycle c post pre, segment_cmds_until_cycle]

theorem snapshots_of_labels :
    ∀ lines : List record, (snapshots_of lines).map (fun sample => sample.cycle) =
      cycle_labels lines
  | [] => rfl
  | r :: rest => by
    cases r <;> simp [snapshots_of, cycle_labels, snapshots_of_labels rest]

end SnapshotLists


section ParserClaims2

variable {T : Type}

/-- C12: for a log in which no LOAD, FORCE, POKE or STEP record precedes the
first CYCLE record, `load_samples` completes and appends to the Snapshot list
exactly one Snapshot per CYCLE record, in log order, equal labels kept apart,
each labelled with its record's cycle number; the Snapshot of a CYCLE record
holds, in record order, the commands of the STEP, LOAD, FORCE and POKE records
and of the EXPECT records met at a step counter above 1 that lie between it
and the next CYCLE record, with the records' fields; SIGNALS and unrecognized
records add no command. -/
theorem snapshots_per_cycle_record (e : replay_t T) (lines : List record)
    (h : early_command lines = false) :
    ∃ e', load_samples e lines = .ok e' ∧
      e'.samples = e.samples ++ snapshots_of lines ∧
      (snapshots_of lines).map (fun sample => sample.cycle) = cycle_labels lines ∧
      (snapshots_of lines).length = (cycle_labels lines).length ∧
      (∀ pre c post, lines = pre ++ .CYCLE c :: post →
        snapshots_of lines =
          snapshots_of pre ++ ⟨c, segment_cmds 0 post⟩ :: snapshots_of post) ∧
      (∀ pre c mid d post, lines = pre ++ .CYCLE c :: (mid ++ .CYCLE d :: post) →
        segment_cmds 0 (mid ++ .CYCLE d :: post) = segment_cmds 0 mid) := by
  obtain ⟨st', h', hs'⟩ := load_lines_closed lines (load_init e) rfl rfl h
  refine ⟨st'.eng, by simp [load_samples, h'], hs', snapshots_of_labels lines, ?_, ?_, ?_⟩
  · rw [← snapshots_of_labels lines, List.length_map]
  · rintro pre c post rfl
    exact snapshots_of_append_cycle c post pre
  · intro pre c mid d post _
    exact segment_cmds_until_cycle d post mid 0

/-- C12, evaluated: two CYCLE records labelled 4 give two Snapshots labelled
4; the EXPECT at step count 1 is left out, the one at step count 2 is kept. -/
theorem snapshots_per_cycle_record_witness :
    early_command twice_log = false ∧
    snapshots_of twice_log =
      [⟨4, [.step_t 1, .step_t 1, .expect_t 0 0 3]⟩, ⟨4, [.poke_t 0 0 5]⟩] ∧
    ∃ e', load_samples (replay_t.fresh Nat) twice_log = .ok e' ∧
      e'.samples = (replay_t.fresh Nat).samples ++ snapshots_of twice_log :=
  ⟨by decide, by decide,
    (snapshots_per_cycle_record (replay_t.fresh Nat) twice_log (by decide)).imp
      fun _ hx => ⟨hx.1, hx.2.1⟩⟩

/-- C15: a record whose code is none of the seven listed is processed without
failure and leaves the parser state (chain table, Snapshot list with the
commands of the current Snapshot, step counter, pointer and every other engine
member) exactly as it was; the loop goes on with the next record, so a log
and the same log without its unrecognized records are parsed alike. -/
theorem unrecognized_record_ignored (st : load_state T) (code : Nat)
    (rest lines : List record) :
    load_record st (.other code) = .ok st ∧
    load_lines (.other code :: rest) st = load_lines rest st ∧
    load_lines (lines.filter fun r => !unrecognized r) st = load_lines lines st := by
  refine ⟨rfl, rfl, ?_⟩
  induction lines generalizing st with
  | nil => rfl
  | cons r tail ih =>
    cases hu : unrecognized r with
    | true =>
      obtain ⟨type, rfl⟩ : ∃ type, r = .other type := by
        cases r <;> simp [unrecognized] at hu
        exact ⟨_, rfl⟩
      rw [List.filter_cons_of_neg (by simp [hu]), ih]
      rfl
    | false =>
      rw [List.filter_cons_of_pos (by simp [hu])]
      simp only [load_lines]
      cases load_record st r with
      | error f => rfl
      | ok st1 => exact ih st1

/-- C19: `load_samples` fails iff some LOAD, FORCE, POKE or STEP record occurs
before the first CYCLE record, and the failure is then the access to the
missing current Snapshot; otherwise it completes.  While the pointer is `NULL`
and the step counter 0, a SIGNALS record and an unrecognized record are
processed without failure and keep both, and an EXPECT record is dropped,
leaving the state as it was.  Once a CYCLE record has set the pointer, no
later record fails. -/
theorem null_sample_iff_early_command (e : replay_t T) (lines : List record) :
    (load_samples e lines = .error Fault.null_sample ↔ early_command lines = true) ∧
    ((∃ f, load_samples e lines = .error f) ↔ early_command lines = true) ∧
    (early_command lines = false → ∃ e', load_samples e lines = .ok e') ∧
    (∀ st : load_state T, st.sample = none → st.steps = 0 →
      (∀ t signal, ∃ st', load_record st (.SIGNALS t signal) = .ok st' ∧
        st'.sample = none ∧ st'.steps = 0) ∧
      (∀ code, load_record st (.other code) = .ok st) ∧
      (∀ t id value, load_record st (.EXPECT t id value) = .ok st)) ∧
    (∀ (st : load_state T) (c : Nat) (later : List record),
      ∃ st1 st2, load_record st (.CYCLE c) = .ok st1 ∧ load_lines later st1 = .ok st2) := by
  obtain ⟨hfail, hok⟩ := load_lines_of_null lines (load_init e) rfl rfl
  have key : ∀ f, load_samples e lines = .error f →
      early_command lines = true ∧ f = Fault.null_sample := by
    intro f hf
    cases he : early_command lines with
    | true =>
      have h1 := hfail he
      simp only [load_samples, h1, Except.error.injEq] at hf
      exact ⟨rfl, hf.symm⟩
    | false =>
      obtain ⟨st', h'⟩ := hok he
      simp [load_samples, h'] at hf
  refine ⟨⟨fun hf => (key _ hf).1, fun he => by simp [load_samples, hfail he]⟩,
    ⟨fun ⟨f, hf⟩ => (key f hf).1,
      fun he => ⟨Fault.null_sample, by simp [load_samples, hfail he]⟩⟩,
    fun he => ?_, ?_, ?_⟩
  · obtain ⟨st', h'⟩ := hok he
    exact ⟨st'.eng, by simp [load_samples, h']⟩
  · intro st hp hs
    refine ⟨fun t signal => ⟨_, rfl, hp, hs⟩, fun code => rfl, fun t id value => ?_⟩
    have hgt : ¬ st.steps > 1 := by omega
    simp [load_record, hgt]
  · intro st c later
    obtain ⟨st2, h2⟩ := load_lines_of_set later
      ({ eng := { st.eng with samples := st.eng.samples ++ [⟨c, []⟩] }, steps := 0,
         sample := some st.eng.samples.length } : load_state T) _ rfl
    exact ⟨_, st2, rfl, h2⟩

end ParserClaims2


section ReplayClaims2

variable {σ T : Type}

theorem reset_cycles {tg : Target σ T} {s s' : Sim σ T} {n : Nat}
    (h : reset tg s n = Run.ok s') : s'.eng.cycles = s.eng.cycles := by
  obtain ⟨sig, rfl⟩ := reset_ok_inv h
  simp

theorem run_samples_cycles {tg : Target σ T} :
    ∀ (samples : List sample_t) {s s' : Sim σ T}, run_samples tg samples s = Run.ok s' →
      s'.eng.cycles = samples_cycles s.eng.cycles samples
  | [], s, s', h => by
    simp only [run_samples, Run.ok.injEq] at h
    subst h
    rfl
  | sample :: rest, s, s', h => by
    simp only [run_samples] at h
    obtain ⟨s2, h12, h3⟩ := Run.bind_eq_ok.mp h
    obtain ⟨s1, h1, h2⟩ := Run.bind_eq_ok.mp h12
    rw [run_samples_cycles rest h3, (run_cmds_ok_inv sample.cmds h2).2.2, reset_cycles h1]
    simp [samples_cycles]

/-- C16: for a Poke whose resolved name `chains[type][id]` is registered with
handle `sig`, and for a Load whose resolved name (with the `[index]` suffix
for an index of at least 0) is registered with handle `sig`, the loop body of
`replay()` completes having made exactly one call, `put_value(sig, value,
PUT_POKE)` for the Poke and `put_value(sig, value, PUT_LOAD)` for the Load,
with the command's value; no `take_steps`, no `get_value`; every engine
member, the cycle counter and the verdict among them, is as before.  Nothing
is asked of the bare name of an indexed Load. -/
theorem poke_load_single_deposit (tg : Target σ T) (s : Sim σ T) (type id : Nat)
    (value : biguint_t) (idx : Int) (name : String)
    (hn : resolve s.eng.chains type id = some name) :
    (∀ sig, handle_of s.eng.replay_data name = some sig →
      ∃ s', exec_cmd tg s (.poke_t type id value) = Run.ok s' ∧
        s'.calls = s.calls ++ [Call.put_value sig value PUT_VALUE_TYPE.PUT_POKE] ∧
        s'.tgt = tg.put_value s.tgt sig value PUT_VALUE_TYPE.PUT_POKE ∧
        s'.eng = s.eng ∧ s'.eng.cycles = s.eng.cycles ∧ s'.eng.pass = s.eng.pass ∧
        s'.expects = s.expects) ∧
    (∀ sig, handle_of s.eng.replay_data (load_name name idx) = some sig →
      ∃ s', exec_cmd tg s (.load_t type id value idx) = Run.ok s' ∧
        s'.calls = s.calls ++ [Call.put_value sig value PUT_VALUE_TYPE.PUT_LOAD] ∧
        s'.tgt = tg.put_value s.tgt sig value PUT_VALUE_TYPE.PUT_LOAD ∧
        s'.eng = s.eng ∧ s'.eng.cycles = s.eng.cycles ∧ s'.eng.pass = s.eng.pass ∧
        s'.expects = s.expects) := by
  constructor
  · intro sig hp
    refine ⟨put_value tg s sig value PUT_VALUE_TYPE.PUT_POKE, ?_, rfl, rfl, rfl, rfl, rfl, rfl⟩
    simp only [exec_cmd, chain_at_eq, hn, Run.bind_ok]
    exact poke_of_handle tg s name value sig hp
  · intro sig hl
    refine ⟨put_value tg s sig value PUT_VALUE_TYPE.PUT_LOAD, ?_, rfl, rfl, rfl, rfl, rfl, rfl⟩
    rw [exec_load_eq, chain_at_eq, hn]
    simp only [Run.bind_ok]
    exact load_of_handle tg s _ value sig hl

/-- C16, evaluated: Poke(0, 0, 8) deposits 8 on the handle of `"a"`; and
where `"a[3]"` is registered and `"a"` is not, Load(0, 0, 9, 3) deposits 9 on
the handle of `"a[3]"`. -/
theorem poke_load_single_deposit_witness :
    resolve deposit_demo.eng.chains 0 0 = some "a" ∧
    resolve indexed_demo.eng.chains 0 0 = some "a" ∧
    handle_of indexed_demo.eng.replay_data "a" = none ∧
    (Run.final (exec_cmd store_target deposit_demo (.poke_t 0 0 8))).calls =
      [Call.put_value 1 8 PUT_VALUE_TYPE.PUT_POKE] ∧
    (Run.final (exec_cmd store_target indexed_demo (.load_t 0 0 9 3))).calls =
      [Call.put_value 1 9 PUT_VALUE_TYPE.PUT_LOAD] ∧
    (∃ s', exec_cmd store_target deposit_demo (.poke_t 0 0 8) = Run.ok s' ∧
      s'.calls = deposit_demo.calls ++ [Call.put_value 1 8 PUT_VALUE_TYPE.PUT_POKE] ∧
      s'.tgt = store_target.put_value deposit_demo.tgt 1 8 PUT_VALUE_TYPE.PUT_POKE ∧
      s'.eng = deposit_demo.eng ∧ s'.eng.cycles = deposit_demo.eng.cycles ∧
      s'.eng.pass = deposit_demo.eng.pass ∧ s'.expects = deposit_demo.expects) ∧
    (∃ s', exec_cmd store_target indexed_demo (.load_t 0 0 9 3) = Run.ok s' ∧
      s'.calls = indexed_demo.calls ++ [Call.put_value 1 9 PUT_VALUE_TYPE.PUT_LOAD] ∧
      s'.tgt = store_target.put_value indexed_demo.tgt 1 9 PUT_VALUE_TYPE.PUT_LOAD ∧
      s'.eng = indexed_demo.eng ∧ s'.eng.cycles = indexed_demo.eng.cycles ∧
      s'.eng.pass = indexed_demo.eng.pass ∧ s'.expects = indexed_demo.expects) :=
  ⟨rfl, rfl, rfl, by decide, by decide,
    (poke_load_single_deposit store_target deposit_demo 0 0 8 3 "a" rfl).1 1 rfl,
    (poke_load_single_deposit store_target indexed_demo 0 0 9 3 "a" rfl).2 1 rfl⟩

/-- C13, at the failing input: the registry holds `"a"` with handle 0 and no
`"reset"`, and there is no Snapshot.  The replay completes; its one
`reset(5)` has added the entry `"reset"` with handle 0 to the registry and
deposited 1 on the handle of `"a"`.  The chain table is unchanged. -/
theorem replay_registers_reset :
    stray_reset_demo.eng.replay_data.signal_map = [("a", 0)] ∧
    replay store_target stray_reset_demo =
      Run.ok (Run.final (replay store_target stray_reset_demo)) ∧
    (Run.final (replay store_target stray_reset_demo)).eng.replay_data.signal_map =
      [("a", 0), ("reset", 0)] ∧
    (Run.final (replay store_target stray_reset_demo)).calls =
      [Call.put_value 0 1 PUT_VALUE_TYPE.PUT_POKE, Call.take_steps 5] ∧
    (Run.final (replay store_target stray_reset_demo)).eng.chains =
      stray_reset_demo.eng.chains :=
  ⟨rfl, rfl, by decide, by decide, by decide⟩

end ReplayClaims2


section Example

variable {σ T : Type}

/-- C11: the example log, parsed into a fresh engine whose registry holds
`"reset"` with handle `sig`, gives the chain table `[["reset"], ["clk"]]` and
the single Snapshot labelled 10 with commands Poke(0,0,v), Step(2),
Expect(0,0,e).  Replayed against a target that reads back from `sig` the value
most recently deposited there, the run completes with cycle counter 2, the
Expect is decided by the comparison (its result is `v = e`), and `finish()`
returns 0 iff `e = v` and a nonzero status otherwise. -/
theorem example_log_verdict (tg : Target σ T) (rd : replay_data_t T) (sig : T) (tgt0 : σ)
    (v e : biguint_t) (hreg : handle_of rd "reset" = some sig)
    (hread : ∀ st d m n,
      (tg.get_value (tg.take_steps (tg.put_value st sig d m) n) sig).1 = d) :
    load_samples { replay_t.fresh T with replay_data := rd } (example_log v e)
      = .ok (example_engine rd v e) ∧
    (example_engine rd v e).samples =
      [⟨10, [.poke_t 0 0 v, .step_t 2, .expect_t 0 0 e]⟩] ∧
    (example_engine rd v e).chains = [["reset"], ["clk"]] ∧
    ∃ s', replay tg (example_sim rd v e tgt0) = Run.ok s' ∧
      s'.eng.cycles = 2 ∧ s'.expects = [decide (v = e)] ∧
      s'.calls =
        [Call.put_value sig 1 PUT_VALUE_TYPE.PUT_POKE, Call.take_steps 5,
         Call.put_value sig 1 PUT_VALUE_TYPE.PUT_POKE, Call.take_steps 5,
         Call.put_value sig v PUT_VALUE_TYPE.PUT_POKE, Call.take_steps 2,
         Call.get_value sig] ∧
      ((finish s').1 = 0 ↔ e = v) ∧ (e ≠ v → (finish s').1 ≠ 0) := by
  refine ⟨rfl, rfl, rfl, ?_⟩
  obtain ⟨s0, hs0⟩ : ∃ s0 : Sim σ T, s0 = example_sim rd v e tgt0 := ⟨_, rfl⟩
  rw [← hs0]
  have e0 : s0.eng = example_engine rd v e := by rw [hs0]; rfl
  have c0 : s0.calls = [] := by rw [hs0]; rfl
  have x0 : s0.expects = [] := by rw [hs0]; rfl
  have hsm : s0.eng.samples = [⟨10, [.poke_t 0 0 v, .step_t 2, .expect_t 0 0 e]⟩] := by
    rw [e0]; rfl
  have hcy : s0.eng.cycles = 0 := by rw [e0]; rfl
  have hps : s0.eng.pass = true := by rw [e0]; rfl
  have hreg0 : handle_of s0.eng.replay_data "reset" = some sig := by rw [e0]; exact hreg
  have hres : resolve s0.eng.chains 0 0 = some "reset" := by rw [e0]; rfl
  obtain ⟨s2, hs2⟩ : ∃ s2 : Sim σ T, s2 = take_steps tg (put_value tg
      (take_steps tg (put_value tg s0 sig 1 .PUT_POKE) 5) sig 1 .PUT_POKE) 5 := ⟨_, rfl⟩
  have r1 : reset tg s0 5 = Run.ok (take_steps tg (put_value tg s0 sig 1 .PUT_POKE) 5) :=
    reset_of_handle tg s0 5 sig hreg0
  have r2 : reset tg (take_steps tg (put_value tg s0 sig 1 .PUT_POKE) 5) 5 = Run.ok s2 := by
    rw [hs2]
    exact reset_of_handle tg _ 5 sig hreg0
  have e2 : s2.eng = s0.eng := by rw [hs2]; rfl
  have c2 : s2.calls = [Call.put_value sig 1 .PUT_POKE, Call.take_steps 5,
      Call.put_value sig 1 .PUT_POKE, Call.take_steps 5] := by
    rw [hs2]
    simp [c0]
  have x2 : s2.expects = [] := by rw [hs2]; exact x0
  obtain ⟨s4, hs4⟩ : ∃ s4 : Sim σ T, s4 = step tg (put_value tg s2 sig v .PUT_POKE) 2 :=
    ⟨_, rfl⟩
  have p3 : exec_cmd tg s2 (.poke_t 0 0 v) = Run.ok (put_value tg s2 sig v .PUT_POKE) := by
    simp only [exec_cmd, chain_at_eq, e2, hres, Run.bind_ok]
    exact poke_of_handle tg s2 "reset" v sig (by rw [e2]; exact hreg0)
  have p4 : exec_cmd tg (put_value tg s2 sig v .PUT_POKE) (.step_t 2) = Run.ok s4 := by
    rw [hs4]
    rfl
  have e4 : s4.eng = { s0.eng with cycles := 2 } := by
    rw [hs4, step_eng, put_value_eng, e2, hcy]
    rfl
  have c4 : s4.calls = s2.calls ++ [Call.put_value sig v .PUT_POKE, Call.take_steps 2] := by
    rw [hs4]
    simp
  have x4 : s4.expects = [] := by rw [hs4]; exact x2
  have o4 : (tg.get_value s4.tgt sig).1 = v := by
    rw [hs4]
    exact hread s2.tgt v .PUT_POKE 2
  have h4 : handle_of s4.eng.replay_data "reset" = some sig := by rw [e4]; exact hreg0
  have p5 : exec_cmd tg s4 (.expect_t 0 0 e) =
      Run.ok { (get_value tg s4 sig).2 with
        expects := [decide (v = e)]
        eng := { s4.eng with pass := decide (v = e) } } := by
    have hres4 : resolve s4.eng.chains 0 0 = some "reset" := by rw [e4]; exact hres
    have hb : ((tg.get_value s4.tgt sig).1 == e || decide (s4.eng.cycles ≤ 1)) =
        decide (v = e) := by
      rw [o4, e4]
      simp [beq_eq_decide]
    simp only [exec_cmd, chain_at_eq, hres4, Run.bind_ok, expect_of_handle tg s4 "reset" e sig h4,
      hb, x4, List.nil_append, get_value_eng]
    rw [e4]
    simp [hps]
  have hrun : replay tg s0 = Run.ok { (get_value tg s4 sig).2 with
        expects := [decide (v = e)]
        eng := { s4.eng with pass := decide (v = e), is_exit := true } } := by
    rw [replay_eq_in_order]
    unfold replay_in_order
    rw [r1]
    simp only [Run.bind_ok, take_steps_eng, put_value_eng, hsm, run_samples, r2, run_cmds, p3,
      p4, p5]
  refine ⟨_, hrun, ?_, rfl, ?_, ?_, ?_⟩
  · show s4.eng.cycles = 2
    rw [e4]
  · show s4.calls ++ [Call.get_value sig] = _
    rw [c4, c2]
    rfl
  · show (if decide (v = e) = true then 0 else 1) = 0 ↔ e = v
    by_cases hve : v = e
    · simp [hve]
    · have hev : ¬ e = v := fun h => hve h.symm
      simp [hve, hev]
  · intro hne
    show (if decide (v = e) = true then 0 else 1) ≠ 0
    have hve : ¬ v = e := fun h => hne h.symm
    simp [hve]

/-- C11, evaluated on the spec's two instances: with `v = 1`, `e = 1` the
status is 0; with `v = 1`, `e = 0` the status is 1. -/
theorem example_log_verdict_witness :
    handle_of reset_only "reset" = some 0 ∧
    (finish (Run.final (replay store_target (example_sim reset_only 1 1 [])))).1 = 0 ∧
    (finish (Run.final (replay store_target (example_sim reset_only 1 0 [])))).1 = 1 ∧
    ∃ s', replay store_target (example_sim reset_only 1 0 []) = Run.ok s' ∧
      s'.eng.cycles = 2 ∧ s'.expects = [decide ((1 : Nat) = 0)] ∧
      s'.calls =
        [Call.put_value 0 1 PUT_VALUE_TYPE.PUT_POKE, Call.take_steps 5,
         Call.put_value 0 1 PUT_VALUE_TYPE.PUT_POKE, Call.take_steps 5,
         Call.put_value 0 1 PUT_VALUE_TYPE.PUT_POKE, Call.take_steps 2,
         Call.get_value 0] ∧
      ((finish s').1 = 0 ↔ (0 : Nat) = 1) ∧ ((0 : Nat) ≠ 1 → (finish s').1 ≠ 0) :=
  ⟨rfl, by decide, by decide,
    (example_log_verdict store_target reset_only 0 [] 1 0 rfl
      (fun st d m n => by simp [store_target])).2.2.2⟩

end Example


section Accounting

variable {σ T : Type}

theorem WORD_pos : 0 < WORD := by decide

theorem advances_append :
    ∀ (a b : List (Call T)), advances (a ++ b) = advances a ++ advances b
  | [], _ => rfl
  | c :: a, b => by
    cases c <;> simp [advances, advances_append a b]

theorem advances_cmd_calls (e : replay_t T) (cmd : sample_inst_t) :
    advances (cmd_calls e cmd) = step_counts [cmd] := by
  cases cmd with
  | step_t n => rfl
  | force_t type id value => rfl
  | load_t type id value idx =>
    simp only [cmd_calls, step_counts]
    split <;> rfl
  | poke_t type id value =>
    simp only [cmd_calls, step_counts]
    split <;> rfl
  | expect_t type id value =>
    simp only [cmd_calls, step_counts]
    split <;> rfl

theorem step_counts_cons (cmd : sample_inst_t) (rest : List sample_inst_t) :
    step_counts (cmd :: rest) = step_counts [cmd] ++ step_counts rest := by
  cases cmd <;> simp [step_counts]

theorem advances_cmds_calls (e : replay_t T) :
    ∀ cmds : List sample_inst_t, advances (cmds_calls e cmds) = step_counts cmds
  | [] => rfl
  | cmd :: rest => by
    have ih := advances_cmds_calls e rest
    unfold cmds_calls at ih ⊢
    rw [List.map_cons, List.flatten_cons, advances_append, advances_cmd_calls, ih,
      ← step_counts_cons]

theorem step_counts_sum :
    ∀ cmds : List sample_inst_t, (step_counts cmds).sum = cmds_steps cmds
  | [] => rfl
  | cmd :: rest => by
    have ih := step_counts_sum rest
    unfold cmds_steps at ih ⊢
    cases cmd <;> simp [step_counts, step_count, ih]

theorem cmds_cycles_lt :
    ∀ (cmds : List sample_inst_t) (c : Nat), c < WORD → cmds_cycles c cmds < WORD
  | [], c, h => h
  | cmd :: rest, c, h => by
    have hstep : cmd_cycles c cmd < WORD := by
      cases cmd <;> simp only [cmd_cycles] <;> first | exact h | exact Nat.mod_lt _ WORD_pos
    have := cmds_cycles_lt rest (cmd_cycles c cmd) hstep
    simpa [cmds_cycles] using this

/-- The counter after a command list is the counter before plus the Step
counts, modulo `2 ^ 64`. -/
theorem cmds_cycles_mod :
    ∀ (cmds : List sample_inst_t) (c : Nat), c < WORD →
      cmds_cycles c cmds = (c + cmds_steps cmds) % WORD
  | [], c, h => by simp [cmds_cycles, cmds_steps, Nat.mod_eq_of_lt h]
  | cmd :: rest, c, h => by
    have hstep : cmd_cycles c cmd < WORD := by
      cases cmd <;> simp only [cmd_cycles] <;> first | exact h | exact Nat.mod_lt _ WORD_pos
    have ih := cmds_cycles_mod rest (cmd_cycles c cmd) hstep
    have hfold : cmds_cycles c (cmd :: rest) = cmds_cycles (cmd_cycles c cmd) rest := rfl
    have hsum : cmds_steps (cmd :: rest) = step_count cmd + cmds_steps rest := by
      simp [cmds_steps]
    have hmod : cmd_cycles c cmd % WORD = (c + step_count cmd) % WORD := by
      cases cmd <;> simp [cmd_cycles, step_count]
    rw [hfold, ih, hsum, Nat.add_mod, hmod, ← Nat.add_mod]
    congr 1
    omega

theorem samples_cycles_mod :
    ∀ (samples : List sample_t) (c : Nat), c < WORD →
      samples_cycles c samples = (c + samples_steps samples) % WORD
  | [], c, h => by simp [samples_cycles, samples_steps, Nat.mod_eq_of_lt h]
  | sample :: rest, c, h => by
    have hlt := cmds_cycles_lt sample.cmds c h
    have ih := samples_cycles_mod rest (cmds_cycles c sample.cmds) hlt
    have hfold : samples_cycles c (sample :: rest) =
        samples_cycles (cmds_cycles c sample.cmds) rest := rfl
    have hsum : samples_steps (sample :: rest) = cmds_steps sample.cmds + samples_steps rest := by
      simp [samples_steps]
    rw [hfold, ih, hsum, cmds_cycles_mod sample.cmds c h, Nat.add_mod, Nat.mod_mod,
      ← Nat.add_mod]
    congr 1
    omega

theorem reset_calls_inv {tg : Target σ T} {s s' : Sim σ T} {n : Nat}
    (h : reset tg s n = Run.ok s') :
    ∃ sig, s'.calls = s.calls ++ [Call.put_value sig 1 PUT_VALUE_TYPE.PUT_POKE,
      Call.take_steps n] := by
  obtain ⟨sig, rfl⟩ := reset_ok_inv h
  exact ⟨sig, by simp⟩

/-- The `take_steps` calls of a completed run of Snapshots: per Snapshot the 5
of its `reset(5)`, then the counts of its Step commands. -/
theorem run_samples_advances {tg : Target σ T} :
    ∀ (samples : List sample_t) {s s' : Sim σ T}, run_samples tg samples s = Run.ok s' →
      ∃ new, s'.calls = s.calls ++ new ∧
        advances new = (samples.map fun sample => 5 :: step_counts sample.cmds).flatten
  | [], s, s', h => by
    simp only [run_samples, Run.ok.injEq] at h
    subst h
    exact ⟨[], by simp, rfl⟩
  | sample :: rest, s, s', h => by
    simp only [run_samples] at h
    obtain ⟨s2, h12, h3⟩ := Run.bind_eq_ok.mp h
    obtain ⟨s1, h1, h2⟩ := Run.bind_eq_ok.mp h12
    obtain ⟨sig, hc1⟩ := reset_calls_inv h1
    have hc2 := (run_cmds_ok_inv sample.cmds h2).2.1
    obtain ⟨new, hc3, ha3⟩ := run_samples_advances rest h3
    refine ⟨[Call.put_value sig 1 PUT_VALUE_TYPE.PUT_POKE, Call.take_steps 5] ++
      cmds_calls s1.eng sample.cmds ++ new, ?_, ?_⟩
    · rw [hc3, hc2, hc1]
      simp
    · rw [advances_append, advances_append, advances_cmds_calls, ha3]
      simp [advances]

theorem flatten_sum_steps :
    ∀ samples : List sample_t,
      ((samples.map fun sample => 5 :: step_counts sample.cmds).flatten).sum =
        5 * samples.length + samples_steps samples
  | [] => rfl
  | sample :: rest => by
    have ih := flatten_sum_steps rest
    have hsum : samples_steps (sample :: rest) = cmds_steps sample.cmds + samples_steps rest := by
      simp [samples_steps]
    rw [List.map_cons, List.flatten_cons, List.sum_append, ih, hsum, List.sum_cons,
      step_counts_sum, List.length_cons]
    omega

/-- C17: on a replay that completes from a cycle counter `c < 2 ^ 64` over `k`
Snapshots, the counter afterwards is `c` plus the sum of the counts of all
Step commands, modulo `2 ^ 64`.  The `take_steps` calls made are, in order:
5 for the first `reset(5)`, then per Snapshot 5 for its `reset(5)` followed by
the count `n` of each of its Step commands; so the target is advanced by
`5 * (k + 1)` plus that sum, while the counter has only the Step cycles. -/
theorem replay_cycle_accounting (tg : Target σ T) (s s' : Sim σ T)
    (h : replay tg s = Run.ok s') (hc : s.eng.cycles < WORD) :
    s'.eng.cycles = (s.eng.cycles + samples_steps s.eng.samples) % WORD ∧
    ∃ new, s'.calls = s.calls ++ new ∧
      advances new =
        5 :: (s.eng.samples.map fun sample => 5 :: step_counts sample.cmds).flatten ∧
      (advances new).sum = 5 * (s.eng.samples.length + 1) + samples_steps s.eng.samples := by
  rw [replay_eq_in_order] at h
  unfold replay_in_order at h
  obtain ⟨s2, h12, h3⟩ := Run.bind_eq_ok.mp h
  obtain ⟨s1, h1, h2⟩ := Run.bind_eq_ok.mp h12
  simp only [Run.ok.injEq] at h3
  subst h3
  rw [reset_samples h1] at h2
  obtain ⟨sig, hc1⟩ := reset_calls_inv h1
  obtain ⟨new, hc2, ha2⟩ := run_samples_advances s.eng.samples h2
  have hadv : advances ([Call.put_value sig 1 PUT_VALUE_TYPE.PUT_POKE, Call.take_steps 5] ++ new)
      = 5 :: (s.eng.samples.map fun sample => 5 :: step_counts sample.cmds).flatten := by
    rw [advances_append, ha2]
    simp [advances]
  refine ⟨?_, [Call.put_value sig 1 PUT_VALUE_TYPE.PUT_POKE, Call.take_steps 5] ++ new, ?_,
    hadv, ?_⟩
  · show s2.eng.cycles = _
    rw [run_samples_cycles s.eng.samples h2, reset_cycles h1,
      samples_cycles_mod s.eng.samples s.eng.cycles hc]
  · show s2.calls = _
    rw [hc2, hc1]
    simp
  · rw [hadv, List.sum_cons, flatten_sum_steps]
    omega

/-- C17, evaluated: two Snapshots with Steps of 2 and 1: three `reset(5)`, the
target is advanced by 18 cycles, the counter ends at 3. -/
theorem replay_cycle_accounting_witness :
    replay store_target order_demo = Run.ok (Run.final (replay store_target order_demo)) ∧
    order_demo.eng.cycles < WORD ∧
    advances (Run.final (replay store_target order_demo)).calls = [5, 5, 2, 5, 1] ∧
    (Run.final (replay store_target order_demo)).eng.cycles = 3 ∧
    (Run.final (replay store_target order_demo)).eng.cycles =
      (order_demo.eng.cycles + samples_steps order_demo.eng.samples) % WORD ∧
    ∃ new, (Run.final (replay store_target order_demo)).calls = order_demo.calls ++ new ∧
      advances new =
        5 :: (order_demo.eng.samples.map fun sample => 5 :: step_counts sample.cmds).flatten ∧
      (advances new).sum =
        5 * (order_demo.eng.samples.length + 1) + samples_steps order_demo.eng.samples :=
  ⟨rfl, by decide, by decide, by decide,
    (replay_cycle_accounting store_target order_demo _ rfl (by decide)).1,
    (replay_cycle_accounting store_target order_demo _ rfl (by decide)).2⟩

end Accounting


section Graceless

variable {σ T : Type}

/-- The full case analysis of `expect_strict`. -/
theorem expect_strict_eq (tg : Target σ T) (s : Sim σ T) (node : String)
    (expected : biguint_t) :
    expect_strict tg s node expected =
      match s.eng.replay_data.signal_map.lookup node with
      | none => Run.abort (Fault.assert_failed node) s
      | some id =>
        match s.eng.replay_data.signals[id]? with
        | some sig =>
          Run.ok ((tg.get_value s.tgt sig).1 == expected,
            { (get_value tg s sig).2 with
              expects := s.expects ++ [(tg.get_value s.tgt sig).1 == expected] })
        | none => Run.abort Fault.out_of_range s := by
  cases hl : s.eng.replay_data.signal_map.lookup node with
  | none => simp [expect_strict, check_signal_of_missing s node hl]
  | some id =>
    cases hs : s.eng.replay_data.signals[id]? <;>
      simp [expect_strict, check_signal_of_lookup s node id hl,
        signal_id_of_lookup s node id hl, signal_at, hs, get_value]

theorem expect_eq_strict (tg : Target σ T) (s : Sim σ T) (node : String)
    (expected : biguint_t) (h : 1 < s.eng.cycles) :
    expect tg s node expected = expect_strict tg s node expected := by
  have hn : ¬ s.eng.cycles ≤ 1 := by omega
  rw [expect_eq, expect_strict_eq]
  cases hl : s.eng.replay_data.signal_map.lookup node with
  | none => rfl
  | some id =>
    cases hs : s.eng.replay_data.signals[id]? with
    | none => simp [hs]
    | some sig => simp [hs, hn]

theorem exec_cmd_eq_strict (tg : Target σ T) (s : Sim σ T) (cmd : sample_inst_t)
    (h : ∀ type id value, cmd = .expect_t type id value → 1 < s.eng.cycles) :
    exec_cmd tg s cmd = exec_cmd_strict tg s cmd := by
  cases cmd with
  | step_t n => rfl
  | load_t type id value idx => rfl
  | force_t type id value => rfl
  | poke_t type id value => rfl
  | expect_t type id value =>
    simp only [exec_cmd, exec_cmd_strict]
    congr 1
    funext name
    rw [expect_eq_strict tg s name value (h type id value rfl)]

theorem guarded_cons {k : Nat} {cmd : sample_inst_t} {rest : List sample_inst_t}
    (h : guarded k (cmd :: rest) = true) :
    (∀ type id value, cmd = .expect_t type id value → 1 < k) ∧
      guarded (cmd_cycles k cmd) rest = true := by
  cases cmd <;> simp [guarded] at h ⊢ <;> exact h

theorem cmd_cycles_le (c : Nat) (cmd : sample_inst_t) :
    cmd_cycles c cmd ≤ c + step_count cmd := by
  cases cmd <;> simp [cmd_cycles, step_count]
  exact Nat.mod_le _ _

theorem cmd_cycles_no_wrap {c : Nat} {cmd : sample_inst_t} (h : c + step_count cmd < WORD) :
    cmd_cycles c cmd = c + step_count cmd := by
  cases cmd <;> simp [cmd_cycles, step_count] at h ⊢
  exact Nat.mod_eq_of_lt h

theorem cmds_steps_cons (cmd : sample_inst_t) (rest : List sample_inst_t) :
    cmds_steps (cmd :: rest) = step_count cmd + cmds_steps rest := by
  simp [cmds_steps]

theorem cmds_steps_append (a b : List sample_inst_t) :
    cmds_steps (a ++ b) = cmds_steps a + cmds_steps b := by
  simp [cmds_steps]

theorem samples_steps_cons (sample : sample_t) (rest : List sample_t) :
    samples_steps (sample :: rest) = cmds_steps sample.cmds + samples_steps rest := by
  simp [samples_steps]

theorem samples_steps_append (a b : List sample_t) :
    samples_steps (a ++ b) = samples_steps a + samples_steps b := by
  simp [samples_steps]

theorem cmds_cycles_no_wrap :
    ∀ (cmds : List sample_inst_t) (c : Nat), c + cmds_steps cmds < WORD →
      cmds_cycles c cmds = c + cmds_steps cmds
  | [], c, _ => by simp [cmds_cycles, cmds_steps]
  | cmd :: rest, c, h => by
    rw [cmds_steps_cons] at h ⊢
    have h1 : cmd_cycles c cmd = c + step_count cmd := cmd_cycles_no_wrap (by omega)
    have hfold : cmds_cycles c (cmd :: rest) = cmds_cycles (cmd_cycles c cmd) rest := rfl
    rw [hfold, h1, cmds_cycles_no_wrap rest _ (by omega)]
    omega

theorem samples_cycles_no_wrap :
    ∀ (samples : List sample_t) (c : Nat), c + samples_steps samples < WORD →
      samples_cycles c samples = c + samples_steps samples
  | [], c, _ => by simp [samples_cycles, samples_steps]
  | sample :: rest, c, h => by
    rw [samples_steps_cons] at h ⊢
    have hfold : samples_cycles c (sample :: rest) =
        samples_cycles (cmds_cycles c sample.cmds) rest := rfl
    rw [hfold, cmds_cycles_no_wrap sample.cmds c (by omega),
      samples_cycles_no_wrap rest _ (by omega)]
    omega

theorem cmds_cycles_le_steps :
    ∀ (cmds : List sample_inst_t) (k : Nat), cmds_cycles k cmds ≤ k + cmds_steps cmds
  | [], k => by simp [cmds_cycles, cmds_steps]
  | cmd :: rest, k => by
    have hfold : cmds_cycles k (cmd :: rest) = cmds_cycles (cmd_cycles k cmd) rest := rfl
    have h1 := cmds_cycles_le_steps rest (cmd_cycles k cmd)
    have h2 := cmd_cycles_le k cmd
    rw [hfold, cmds_steps_cons]
    omega

/-- An Expect of a guarded command list is met at a counter above 1. -/
theorem guarded_split :
    ∀ (cs1 : List sample_inst_t) (k : Nat) (type id : Nat) (value : biguint_t)
      (cs2 : List sample_inst_t),
      guarded k (cs1 ++ .expect_t type id value :: cs2) = true → 1 < cmds_cycles k cs1
  | [], _, type, id, value, _, h => (guarded_cons h).1 type id value rfl
  | cmd :: cs1, k, type, id, value, cs2, h =>
    guarded_split cs1 (cmd_cycles k cmd) type id value cs2 (guarded_cons h).2

/-- Without the grace clause a guarded command list runs the same, as long as
the counter does not wrap. -/
theorem run_cmds_eq_strict (tg : Target σ T) :
    ∀ (cmds : List sample_inst_t) (k : Nat) (s : Sim σ T), guarded k cmds = true →
      k ≤ s.eng.cycles → s.eng.cycles + cmds_steps cmds < WORD →
      run_cmds tg cmds s = run_cmds_strict tg cmds s
  | [], _, _, _, _, _ => rfl
  | cmd :: rest, k, s, hg, hk, hw => by
    obtain ⟨hexp, hrest⟩ := guarded_cons hg
    rw [cmds_steps_cons] at hw
    have hstep : exec_cmd tg s cmd = exec_cmd_strict tg s cmd :=
      exec_cmd_eq_strict tg s cmd fun type id value hc => by
        have := hexp type id value hc
        omega
    have hcont : (exec_cmd tg s cmd).bind (run_cmds tg rest) =
        (exec_cmd tg s cmd).bind (run_cmds_strict tg rest) := by
      refine Run.bind_congr_ok fun s1 h1 => ?_
      have hc1 : s1.eng.cycles = cmd_cycles s.eng.cycles cmd := (exec_cmd_ok_inv h1).2.2.1
      have hnw : cmd_cycles s.eng.cycles cmd = s.eng.cycles + step_count cmd :=
        cmd_cycles_no_wrap (by omega)
      have hle := cmd_cycles_le k cmd
      exact run_cmds_eq_strict tg rest (cmd_cycles k cmd) s1 hrest (by omega) (by omega)
    simp only [run_cmds, run_cmds_strict]
    rw [← hstep]
    exact hcont

theorem run_samples_eq_strict (tg : Target σ T) :
    ∀ (samples : List sample_t) (s : Sim σ T),
      (∀ sample ∈ samples, guarded 0 sample.cmds = true) →
      s.eng.cycles + samples_steps samples < WORD →
      run_samples tg samples s = run_samples_strict tg samples s
  | [], _, _, _ => rfl
  | sample :: rest, s, hg, hw => by
    rw [samples_steps_cons] at hw
    have hinner : (reset tg s 5).bind (run_cmds tg sample.cmds) =
        (reset tg s 5).bind (run_cmds_strict tg sample.cmds) := by
      refine Run.bind_congr_ok fun s1 h1 => ?_
      have hc1 := reset_cycles h1
      exact run_cmds_eq_strict tg sample.cmds 0 s1 (hg sample (List.mem_cons_self _ _))
        (Nat.zero_le _) (by omega)
    have houter : ((reset tg s 5).bind (run_cmds tg sample.cmds)).bind (run_samples tg rest) =
        ((reset tg s 5).bind (run_cmds tg sample.cmds)).bind (run_samples_strict tg rest) := by
      refine Run.bind_congr_ok fun s2 h2 => ?_
      obtain ⟨s1, h1, h12⟩ := Run.bind_eq_ok.mp h2
      have hc2 : s2.eng.cycles = s.eng.cycles + cmds_steps sample.cmds := by
        rw [(run_cmds_ok_inv sample.cmds h12).2.2, reset_cycles h1,
          cmds_cycles_no_wrap sample.cmds _ (by omega)]
      exact run_samples_eq_strict tg rest s2
        (fun smp hs => hg smp (List.mem_cons_of_mem _ hs)) (by omega)
    simp only [run_samples, run_samples_strict]
    rw [← hinner]
    exact houter

theorem guarded_segment :
    ∀ (lines : List record) (k : Nat), guarded k (segment_cmds k lines) = true
  | [], _ => rfl
  | r :: rest, k => by
    cases r with
    | SIGNALS t signal => simpa [segment_cmds] using guarded_segment rest k
    | CYCLE cycles => simp [segment_cmds, guarded]
    | LOAD t id value idx => simpa [segment_cmds, guarded, cmd_cycles] using guarded_segment rest k
    | FORCE t id value => simpa [segment_cmds, guarded, cmd_cycles] using guarded_segment rest k
    | POKE t id value => simpa [segment_cmds, guarded, cmd_cycles] using guarded_segment rest k
    | STEP n =>
      simpa [segment_cmds, guarded, cmd_cycles] using guarded_segment rest ((k + n) % WORD)
    | EXPECT t id value =>
      by_cases hgt : k > 1
      · have hk : 1 < k := hgt
        simpa [segment_cmds, hgt, guarded, cmd_cycles, hk] using guarded_segment rest k
      · simpa [segment_cmds, hgt] using guarded_segment rest k
    | other type => simpa [segment_cmds] using guarded_segment rest k

theorem snapshots_guarded :
    ∀ (lines : List record), ∀ sample ∈ snapshots_of lines, guarded 0 sample.cmds = true
  | [], _, h => by simp [snapshots_of] at h
  | r :: rest, sample, h => by
    cases r with
    | CYCLE cycles =>
      simp only [snapshots_of, List.mem_cons] at h
      rcases h with rfl | h
      · exact guarded_segment rest 0
      · exact snapshots_guarded rest sample h
    | SIGNALS t signal => exact snapshots_guarded rest sample (by simpa [snapshots_of] using h)
    | LOAD t id value idx => exact snapshots_guarded rest sample (by simpa [snapshots_of] using h)
    | FORCE t id value => exact snapshots_guarded rest sample (by simpa [snapshots_of] using h)
    | POKE t id value => exact snapshots_guarded rest sample (by simpa [snapshots_of] using h)
    | STEP n => exact snapshots_guarded rest sample (by simpa [snapshots_of] using h)
    | EXPECT t id value => exact snapshots_guarded rest sample (by simpa [snapshots_of] using h)
    | other type => exact snapshots_guarded rest sample (by simpa [snapshots_of] using h)

/-- What a completed `load_samples` leaves in an engine that had no Snapshot. -/
theorem load_samples_ok_inv {e e' : replay_t T} {lines : List record}
    (h : load_samples e lines = .ok e') (hs : e.samples = []) :
    early_command lines = false ∧ e'.samples = snapshots_of lines ∧ parse_frame e e' := by
  obtain ⟨hfail, hok⟩ := load_lines_of_null lines (load_init e) rfl rfl
  cases he : early_command lines with
  | true => simp [load_samples, hfail he] at h
  | false =>
    obtain ⟨st', h', hs'⟩ := load_lines_closed lines (load_init e) rfl rfl he
    have hfr := load_lines_frame lines h'
    simp only [load_samples, h', Except.ok.injEq] at h
    subst h
    refine ⟨rfl, ?_, hfr⟩
    rw [hs']
    show e.samples ++ _ = _
    rw [hs]
    rfl

/-- The verdict of a completed replay is the verdict before AND the values
the Expects returned. -/
theorem replay_pass_expects {tg : Target σ T} {s s' : Sim σ T}
    (h : replay tg s = Run.ok s') :
    ∃ rs, s'.expects = s.expects ++ rs ∧ s'.eng.pass = (s.eng.pass && rs.all id) := by
  refine replay_ok_induct tg
    (fun a b => ∃ rs, b.expects = a.expects ++ rs ∧ b.eng.pass = (a.eng.pass && rs.all id))
    ?_ ?_ ?_ ?_ ?_ h
  · exact fun a => ⟨[], by simp, by simp⟩
  · rintro a b c ⟨r1, e1, p1⟩ ⟨r2, e2, p2⟩
    exact ⟨r1 ++ r2, by rw [e2, e1, List.append_assoc],
      by rw [p2, p1, List.all_append, Bool.and_assoc]⟩
  · intro a n b hab
    obtain ⟨sig, rfl⟩ := reset_ok_inv hab
    exact ⟨[], by simp, by simp⟩
  · intro a cmd b hab
    exact (exec_cmd_ok_inv hab).2.2.2
  · exact fun a => ⟨[], by simp, by simp⟩

end Graceless


section GracelessClaim

variable {σ T : Type}

/-- C18: let a log be parsed by `load_samples` into an engine with cycle
counter 0, no Snapshot and a true verdict, and let the Step counts of the
parsed Snapshots total less than `2 ^ 64`.  Then the replay is the replay in
which every Expect is decided by `observed == expected` alone; whenever an
Expect is reached (after `reset(5)`, the Snapshots before, the `reset(5)` of
its Snapshot and the commands before it) the cycle counter is greater than 1;
and on completion the verdict is true iff every evaluated Expect returned
true. -/
theorem parsed_expects_never_graced (tg : Target σ T) (e e' : replay_t T)
    (lines : List record) (s : Sim σ T) (hcyc : e.cycles = 0) (hnone : e.samples = [])
    (hpass : e.pass = true) (hload : load_samples e lines = .ok e') (hs : s.eng = e')
    (htot : samples_steps e'.samples < WORD) :
    replay tg s = replay_strict tg s ∧
    (∀ pre sample post cs1 type id value cs2 s1 s2 s3,
      s.eng.samples = pre ++ sample :: post →
      sample.cmds = cs1 ++ .expect_t type id value :: cs2 →
      reset tg s 5 = Run.ok s1 → run_samples tg pre s1 = Run.ok s2 →
      (reset tg s2 5).bind (run_cmds tg cs1) = Run.ok s3 →
      1 < s3.eng.cycles ∧
        exec_cmd tg s3 (.expect_t type id value) =
          exec_cmd_strict tg s3 (.expect_t type id value)) ∧
    (∀ s', replay tg s = Run.ok s' →
      ∃ rs, s'.expects = s.expects ++ rs ∧ (s'.eng.pass = true ↔ ∀ r ∈ rs, r = true)) := by
  obtain ⟨_, hsnap, hfr⟩ := load_samples_ok_inv hload hnone
  have hc0 : s.eng.cycles = 0 := by rw [hs, hfr.1, hcyc]
  have hp0 : s.eng.pass = true := by rw [hs, hfr.2.1, hpass]
  have hsm : s.eng.samples = snapshots_of lines := by rw [hs, hsnap]
  have htot' : samples_steps s.eng.samples < WORD := by rw [hs]; exact htot
  have hguard : ∀ sample ∈ s.eng.samples, guarded 0 sample.cmds = true := by
    rw [hsm]
    exact snapshots_guarded lines
  refine ⟨?_, ?_, ?_⟩
  · rw [replay_eq_in_order]
    unfold replay_in_order replay_strict
    congr 1
    refine Run.bind_congr_ok fun s1 h1 => ?_
    have hs1 : s1.eng.samples = s.eng.samples := reset_samples h1
    have hc1 : s1.eng.cycles = 0 := by rw [reset_cycles h1, hc0]
    exact run_samples_eq_strict tg s1.eng.samples s1 (by rw [hs1]; exact hguard)
      (by rw [hs1, hc1]; omega)
  · intro pre sample post cs1 type id value cs2 s1 s2 s3 hsplit hcmds h1 h2 h3
    obtain ⟨r, hr, hc⟩ := Run.bind_eq_ok.mp h3
    have hsum : samples_steps s.eng.samples =
        samples_steps pre + (cmds_steps cs1 + cmds_steps (.expect_t type id value :: cs2)) +
          samples_steps post := by
      rw [hsplit, samples_steps_append, samples_steps_cons, hcmds, cmds_steps_append]
      omega
    have hpre : samples_cycles s.eng.cycles pre = samples_steps pre := by
      rw [hc0, samples_cycles_no_wrap pre 0 (by omega)]
      omega
    have hcur : cmds_cycles (samples_steps pre) cs1 = samples_steps pre + cmds_steps cs1 :=
      cmds_cycles_no_wrap cs1 _ (by omega)
    have hcyc3 : s3.eng.cycles = samples_steps pre + cmds_steps cs1 := by
      rw [(run_cmds_ok_inv cs1 hc).2.2, reset_cycles hr, run_samples_cycles pre h2,
        reset_cycles h1, hpre, hcur]
    have hg : guarded 0 (cs1 ++ .expect_t type id value :: cs2) = true := by
      rw [← hcmds]
      exact hguard sample (by rw [hsplit]; simp)
    have hgt := guarded_split cs1 0 type id value cs2 hg
    have hle := cmds_cycles_le_steps cs1 0
    have h13 : 1 < s3.eng.cycles := by omega
    exact ⟨h13, exec_cmd_eq_strict tg s3 _ fun _ _ _ _ => h13⟩
  · intro s' h'
    obtain ⟨rs, hx, hp⟩ := replay_pass_expects h'
    refine ⟨rs, hx, ?_⟩
    rw [hp, hp0]
    simp [List.all_eq_true]

/-- C18, evaluated: of four EXPECT records two survive the parse; replayed,
the first reads 0 where 5 is expected and fails, the second reads the 5 poked
before it and succeeds; the run is the run without grace clause. -/
theorem parsed_expects_never_graced_witness :
    load_samples registered_fresh parsed_log = .ok parsed_engine ∧
    parsed_engine.samples =
      [⟨1, [.step_t 2, .expect_t 0 0 5]⟩,
       ⟨2, [.step_t 1, .step_t 1, .poke_t 0 0 5, .expect_t 0 0 5]⟩] ∧
    (Run.final (replay store_target (store_sim parsed_engine))).expects =
      [false, true] ∧
    replay store_target (store_sim parsed_engine) =
      replay_strict store_target (store_sim parsed_engine) ∧
    (∀ s', replay store_target (store_sim parsed_engine) = Run.ok s' →
      ∃ rs, s'.expects = (store_sim parsed_engine).expects ++ rs ∧
        (s'.eng.pass = true ↔ ∀ r ∈ rs, r = true)) :=
  ⟨rfl, by decide, by decide,
    (parsed_expects_never_graced store_target registered_fresh parsed_engine parsed_log
      (store_sim parsed_engine) rfl rfl rfl rfl rfl (by decide)).1,
    (parsed_expects_never_graced store_target registered_fresh parsed_engine parsed_log
      (store_sim parsed_engine) rfl rfl rfl rfl rfl (by decide)).2.2⟩

end GracelessClaim


section Tables

variable {σ T : Type}

/-- A completed replay leaves the chain table, the signal list and the
Snapshot list as they were, and the name-to-handle map too when `"reset"` was
in it at the start. -/
theorem replay_keeps_tables {tg : Target σ T} {s s' : Sim σ T}
    (h : replay tg s = Run.ok s') :
    s'.eng.chains = s.eng.chains ∧
      s'.eng.replay_data.signals = s.eng.replay_data.signals ∧
      s'.eng.samples = s.eng.samples ∧
      ((s.eng.replay_data.signal_map.lookup "reset").isSome = true →
        s'.eng.replay_data.signal_map = s.eng.replay_data.signal_map) := by
  refine replay_ok_induct tg
    (fun a b => b.eng.chains = a.eng.chains ∧
      b.eng.replay_data.signals = a.eng.replay_data.signals ∧
      b.eng.samples = a.eng.samples ∧
      ((a.eng.replay_data.signal_map.lookup "reset").isSome = true →
        b.eng.replay_data.signal_map = a.eng.replay_data.signal_map))
    ?_ ?_ ?_ ?_ ?_ h
  · exact fun a => ⟨rfl, rfl, rfl, fun _ => rfl⟩
  · rintro a b c ⟨a1, a2, a3, a4⟩ ⟨b1, b2, b3, b4⟩
    refine ⟨b1.trans a1, b2.trans a2, b3.trans a3, fun hr => ?_⟩
    have hab := a4 hr
    rw [b4 (by rw [hab]; exact hr), hab]
  · intro a n b hab
    obtain ⟨sig, rfl⟩ := reset_ok_inv hab
    refine ⟨rfl, rfl, rfl, fun hr => ?_⟩
    obtain ⟨id, hid⟩ := Option.isSome_iff_exists.mp hr
    show (signal_id a "reset").2.eng.replay_data.signal_map = _
    rw [signal_id_of_lookup a "reset" id hid]
  · intro a cmd b hab
    obtain ⟨h1, h2, h3, _⟩ := (exec_cmd_ok_inv hab).1
    exact ⟨h2, by rw [h3], h1, fun _ => by rw [h3]⟩
  · exact fun a => ⟨rfl, rfl, rfl, fun _ => rfl⟩

end Tables

section GraceWindow

variable {σ T : Type}

end GraceWindow

end Replay
